import Mathlib

/-!
Verification model of the collaborative-spreadsheet core of this repository:
the coordinate canonicalization, reference parser, dependency graph,
recalculation engine (spreadsheet-engine.js) and the pubsub sync provider
(yjs-libp2p-provider.js).  JavaScript strings are modelled as `String` or
`List Char`; JavaScript numbers as exact fractions (`JNum`; the non-finite
results Infinity/NaN are modelled as evaluation failure, which the engine
maps to the same `#ERROR!` tag it uses for thrown evaluation errors);
JavaScript values stored in the Yjs cell maps as the inductive `JSVal`
with JavaScript truthiness.  Recursive functions whose JavaScript
counterparts terminate through a growing visited set or shrinking input
carry an explicit fuel argument initialized above the worst case, so every
definition is structurally recursive and computable by the kernel.
-/

namespace Spreadsheet

/-- The character classes of the source's regular expressions:
`[A-Z]`, `[0-9]`, and the word characters `[A-Za-z0-9_]` relevant to the
word boundary `\b`. -/
def isUpperAZ (c : Char) : Bool := 65 ≤ c.toNat && c.toNat ≤ 90

def isDigit09 (c : Char) : Bool := 48 ≤ c.toNat && c.toNat ≤ 57

def isWordChar (c : Char) : Bool :=
  isUpperAZ c || isDigit09 c || (97 ≤ c.toNat && c.toNat ≤ 122) || c = '_'

/-- The whitespace characters removed by the `trim()` calls of the source
(ASCII fragment of the JavaScript whitespace class). -/
def isSpaceJS (c : Char) : Bool := c = ' ' || c = '\t' || c = '\n' || c = '\r'

/-- A row/column coordinate pair, the `{row, col}` objects of the source.
Rows and columns are integers: `a1ToCoord` can produce `row = -1`
(for a text like `A0`), exactly as `parseInt(...) - 1` does. -/
structure Coord where
  row : Int
  col : Int
deriving DecidableEq, Repr

/-- The loop body of `colToLetter` on nonnegative columns.  Each
iteration prepends `String.fromCharCode(65 + col % 26)` and continues
with `Math.floor(col / 26) - 1`; the loop exits when that becomes
negative, i.e. when `col < 26`.  The fuel only bounds the recursion depth:
any fuel above `col` computes the full loop, since the column shrinks at
every iteration. -/
def colToLetterAux : Nat → Nat → List Char
  | 0, _ => []
  | fuel + 1, col =>
    if col < 26 then [Char.ofNat (65 + col % 26)]
    else colToLetterAux fuel (col / 26 - 1) ++ [Char.ofNat (65 + col % 26)]

/-- `colToLetter` (spreadsheet-engine.js lines 18-25): converts a column
number to letters, `0 -> A`, `25 -> Z`, `26 -> AA`; the empty string on a
negative column (the `while (col >= 0)` loop does not run). -/
def colToLetter (col : Int) : List Char :=
  if col < 0 then [] else colToLetterAux (col.toNat + 1) col.toNat

/-- `letterToCol` (lines 32-38): folds `col * 26 + charCode - 64` over the
letters and subtracts one at the end. -/
def letterToCol (letters : List Char) : Int :=
  (letters.foldl (fun col c => col * 26 + (c.toNat : Int) - 64) 0) - 1

/-- The loop of the decimal rendering of a natural number (digits most
significant first); fuel as in `colToLetterAux`. -/
def natToDigitsAux : Nat → Nat → List Char
  | 0, _ => []
  | fuel + 1, n =>
    if n < 10 then [Char.ofNat (48 + n)]
    else natToDigitsAux fuel (n / 10) ++ [Char.ofNat (48 + n % 10)]

/-- The decimal digit list of a natural number; models the JavaScript
decimal rendering of a nonnegative integer. -/
def natToDigits (n : Nat) : List Char := natToDigitsAux (n + 1) n

/-- The JavaScript decimal rendering of an integer (used for the
`(row + 1)` part of `coordToA1`). -/
def intToDigits (n : Int) : List Char :=
  if n < 0 then '-' :: natToDigits (-n).toNat else natToDigits n.toNat

/-- `parseInt` on a nonempty all-digit string: fold `acc * 10 + digit`. -/
def digitsToNat (digits : List Char) : Nat :=
  digits.foldl (fun acc c => acc * 10 + (c.toNat - 48)) 0

/-- `coordToA1` (lines 46-48): `colToLetter(col) + (row + 1)`. -/
def coordToA1 (row col : Int) : String :=
  String.mk (colToLetter col ++ intToDigits (row + 1))

/-- `a1ToCoord` (lines 55-62): matches `^([A-Z]+)(\d+)$` and returns
`{col: letterToCol(letters), row: parseInt(digits) - 1}`; `none` when the
pattern does not match.  Since the two character classes are disjoint and
the pattern is anchored, the regular expression matches exactly when the
string splits as a nonempty `[A-Z]` prefix followed by a nonempty all-digit
suffix. -/
def a1ToCoord (s : String) : Option Coord :=
  let letters := s.data.takeWhile isUpperAZ
  let rest := s.data.dropWhile isUpperAZ
  if letters = [] then none
  else if rest = [] then none
  else if rest.all isDigit09 then
    some ⟨(digitsToNat rest : Int) - 1, letterToCol letters⟩
  else none

/-! ## JavaScript numbers

JavaScript numbers are modelled as exact integer fractions with a nonzero
(possibly negative) denominator and no normalization, so that all
arithmetic is plain integer arithmetic and reduces in the kernel.
Numeric equality (`===`) is value equality by cross-multiplication. -/

structure JNum where
  num : Int
  den : Int
deriving DecidableEq, Repr

namespace JNum

def ofInt (n : Int) : JNum := ⟨n, 1⟩

def add (a b : JNum) : JNum := ⟨a.num * b.den + b.num * a.den, a.den * b.den⟩

def sub (a b : JNum) : JNum := ⟨a.num * b.den - b.num * a.den, a.den * b.den⟩

def mul (a b : JNum) : JNum := ⟨a.num * b.num, a.den * b.den⟩

def div (a b : JNum) : JNum := ⟨a.num * b.den, a.den * b.num⟩

def neg (a : JNum) : JNum := ⟨-a.num, a.den⟩

/-- Whether the value is `0` (the denominator is kept nonzero). -/
def isZero (a : JNum) : Bool := a.num = 0

/-- Numeric `===`. -/
def valEq (a b : JNum) : Bool := a.num * b.den = b.num * a.den

end JNum

def pow10 : Nat → Int
  | 0 => 1
  | n + 1 => 10 * pow10 n

/-! ## JavaScript values stored in the Yjs cell maps -/

/-- The values the engine stores and reads through the Yjs maps:
numbers, strings, booleans, `null`, and `undefined` (a `Y.Map.get` of an
absent key). -/
inductive JSVal where
  | num (q : JNum)
  | str (s : String)
  | bool (b : Bool)
  | null
  | undefined
deriving DecidableEq, Repr

/-- JavaScript truthiness, as used by the `||` coercions of `getCell` /
`getAllCells` and the `cellData.get('formula')` guards. -/
def truthy : JSVal → Bool
  | .num q => !q.isZero
  | .str s => s != ("")
  | .bool b => b
  | .null => false
  | .undefined => false

/-- JavaScript strict equality `===` on stored values (numbers compare by
value; distinct types are never equal; the engine never stores `NaN`). -/
def jsEq : JSVal → JSVal → Bool
  | .num a, .num b => JNum.valEq a b
  | .str a, .str b => a = b
  | .bool a, .bool b => a = b
  | .null, .null => true
  | .undefined, .undefined => true
  | _, _ => false

/-- One cell's Yjs map: the three fields the engine ever writes.  A field
never written reads back as `undefined`. -/
structure CellData where
  value : JSVal
  formula : JSVal
  error : JSVal
deriving DecidableEq, Repr

def emptyCellData : CellData := ⟨JSVal.undefined, JSVal.undefined, JSVal.undefined⟩

/-- The `{value, formula, error}` object returned by `getCell` and the
entries of `getAllCells`. -/
structure CellView where
  value : JSVal
  formula : JSVal
  error : JSVal
deriving DecidableEq, Repr

/-! ## Association-list model of the Yjs maps

`Y.Map` preserves insertion order and has unique keys; an association list
with first-match lookup and in-place update models it. -/

def alGet {α β : Type} [DecidableEq α] : List (α × β) → α → Option β
  | [], _ => none
  | (k, v) :: t, k' => if k = k' then some v else alGet t k'

def alUpdate {α β : Type} [DecidableEq α] : List (α × β) → α → (β → β) → List (α × β)
  | [], _, _ => []
  | (k, v) :: t, k', f => if k = k' then (k, f v) :: t else (k, v) :: alUpdate t k' f

/-- The engine state: the `cells` map (coordinate to cell map), the
dependency graph (`cellId -> Set of dependent cellIds`), and the
`isProcessing` recursion guard. -/
structure EngineState where
  cells : List (String × CellData)
  dependencyGraph : List (String × List String)
  isProcessing : Bool
deriving DecidableEq, Repr

def emptyEngine : EngineState := ⟨[], [], false⟩

/-- The falsy-to-default coercion performed field-wise by `getCell`
(lines 184-188) and `getAllCells` (lines 476-480): `value || ''`,
`formula || null`, `error || false`. -/
def coerceView (cd : CellData) : CellView :=
  ⟨if truthy cd.value then cd.value else JSVal.str (""),
   if truthy cd.formula then cd.formula else JSVal.null,
   if truthy cd.error then cd.error else JSVal.bool false⟩

/-- `getCell` (lines 180-189) over a cells map. -/
def getCellD (cells : List (String × CellData)) (coord : String) : CellView :=
  match alGet cells coord with
  | none => ⟨JSVal.str (""), JSVal.null, JSVal.bool false⟩
  | some cd => coerceView cd

def getCell (st : EngineState) (coord : String) : CellView := getCellD st.cells coord

/-- `getAllCells` (lines 473-483): every entry of the cells map with the
same falsy coercion. -/
def getAllCells (st : EngineState) : List (String × CellView) :=
  st.cells.map (fun p => (p.1, coerceView p.2))

/-! ## Reference parser

The source finds references with the regular expressions
`\b([A-Z]+\d+)\b` (`parseCellRefs`), `\b([A-Z]+\d+:[A-Z]+\d+)\b`
(`extractReferences`) and `^([A-Z]+\d+):([A-Z]+\d+)$` (`parseRange`).
Because the `[A-Z]` and `\d` classes are disjoint, greedy maximal-run
scanning is exactly the regex semantics: shrinking a run in backtracking
always leaves a character of the same class where the next class is
required.  `\b` holds between a word and a non-word character; the scanner
threads a previous-character-is-word flag.  A failed attempt advances one
position; a match continues at its end (`lastIndex`).  Every step consumes
at least one character, so fuel `length + 1` runs the scan to the end. -/

def scanCellRefsAux : Nat → Bool → List Char → List String
  | 0, _, _ => []
  | _ + 1, _, [] => []
  | fuel + 1, prevW, c :: rest =>
    if isUpperAZ c && !prevW then
      let letters := c :: rest.takeWhile isUpperAZ
      let r1 := rest.dropWhile isUpperAZ
      let digits := r1.takeWhile isDigit09
      let r2 := r1.dropWhile isDigit09
      if digits.isEmpty then scanCellRefsAux fuel (isWordChar c) rest
      else
        match r2 with
        | [] => [String.mk (letters ++ digits)]
        | c2 :: _ =>
          if isWordChar c2 then scanCellRefsAux fuel (isWordChar c) rest
          else String.mk (letters ++ digits) :: scanCellRefsAux fuel true r2
    else scanCellRefsAux fuel (isWordChar c) rest

/-- `parseCellRefs` (lines 70-78). -/
def parseCellRefs (formula : String) : List String :=
  scanCellRefsAux (formula.data.length + 1) false formula.data

def scanRangesAux : Nat → Bool → List Char → List String
  | 0, _, _ => []
  | _ + 1, _, [] => []
  | fuel + 1, prevW, c :: rest =>
    if isUpperAZ c && !prevW then
      let l1 := c :: rest.takeWhile isUpperAZ
      let r1 := rest.dropWhile isUpperAZ
      let d1 := r1.takeWhile isDigit09
      let r2 := r1.dropWhile isDigit09
      match r2 with
      | ':' :: r3 =>
        let l2 := r3.takeWhile isUpperAZ
        let r4 := r3.dropWhile isUpperAZ
        let d2 := r4.takeWhile isDigit09
        let r5 := r4.dropWhile isDigit09
        if d1.isEmpty || l2.isEmpty || d2.isEmpty then scanRangesAux fuel (isWordChar c) rest
        else
          match r5 with
          | [] => [String.mk (l1 ++ d1 ++ [':'] ++ l2 ++ d2)]
          | c2 :: _ =>
            if isWordChar c2 then scanRangesAux fuel (isWordChar c) rest
            else String.mk (l1 ++ d1 ++ [':'] ++ l2 ++ d2) :: scanRangesAux fuel true r5
      | _ => scanRangesAux fuel (isWordChar c) rest
    else scanRangesAux fuel (isWordChar c) rest

/-- The range matches of `extractReferences` (lines 200-205). -/
def scanRanges (formula : String) : List String :=
  scanRangesAux (formula.data.length + 1) false formula.data

/-- The anchored match `^([A-Z]+\d+):([A-Z]+\d+)$` of `parseRange`. -/
def splitRangeParts (l : List Char) : Option (List Char × List Char) :=
  let l1 := l.takeWhile isUpperAZ
  let r1 := l.dropWhile isUpperAZ
  let d1 := r1.takeWhile isDigit09
  let r2 := r1.dropWhile isDigit09
  match r2 with
  | ':' :: r3 =>
    let l2 := r3.takeWhile isUpperAZ
    let r4 := r3.dropWhile isUpperAZ
    let d2 := r4.takeWhile isDigit09
    let r5 := r4.dropWhile isDigit09
    if l1.isEmpty || d1.isEmpty || l2.isEmpty || d2.isEmpty || !r5.isEmpty then none
    else some (l1 ++ d1, l2 ++ d2)
  | _ => none

/-- The integers `lo, lo+1, ..., hi` (empty when `lo > hi`), the values
taken by the source's `for (x = lo; x <= hi; x++)` loops. -/
def intRangeList (lo hi : Int) : List Int :=
  (List.range (hi + 1 - lo).toNat).map (fun i : Nat => lo + (i : Int))

/-- The nested row/column loops of `parseRange` (lines 94-99): rows from
`start.row` up to `end.row`, columns from `start.col` up to `end.col`,
with no corner normalization — an inverted axis yields no iterations. -/
def rectCells (s e : Coord) : List String :=
  (intRangeList s.row e.row).flatMap
    (fun r => (intRangeList s.col e.col).map (fun c => coordToA1 r c))

/-- `parseRange` (lines 86-101). -/
def parseRange (range : String) : List String :=
  match splitRangeParts range.data with
  | none => [range]
  | some (p1, p2) =>
    match a1ToCoord (String.mk p1), a1ToCoord (String.mk p2) with
    | some s, some e => rectCells s e
    | _, _ => [range]

/-- `Set.add` over an insertion-ordered list. -/
def addUnique (l : List String) (x : String) : List String :=
  if x ∈ l then l else l ++ [x]

/-- `extractReferences` (lines 196-212): cells of every range match, then
every individual reference, deduplicated in insertion order. -/
def extractReferences (formula : String) : List String :=
  let fromRanges :=
    (scanRanges formula).foldl (fun acc rg => (parseRange rg).foldl addUnique acc) []
  (parseCellRefs formula).foldl addUnique fromRanges

/-! ## Formula evaluation

`evaluate` (lines 220-255) textually replaces `SUM(range)` calls by the
numeric sum of the range's resolved values, then every remaining bare
coordinate by its numeric value (`0` for blank/non-numeric, and always `0`
for the cell being evaluated), and runs the result through the JavaScript
expression evaluator, accepting only finite numeric results.  The model
composes the substitutions with a tokenizer/recursive-descent evaluator of
the in-scope expression fragment (decimal literals, `+ - * /`, unary
signs, parentheses, coordinates, uppercase `SUM(range)`); JavaScript
evaluation failures and non-finite results (division by zero) are `none`,
which `evaluate` maps to the `#ERROR!` tag. -/

/-- JavaScript `parseFloat` on the in-scope fragment: optional leading
whitespace and sign, then decimal digits with an optional fraction part
(prefix semantics; `NaN` is `none`). -/
def parseFloatQ (l : List Char) : Option JNum :=
  let l1 := l.dropWhile isSpaceJS
  let signed : Bool × List Char :=
    match l1 with
    | '-' :: r => (true, r)
    | '+' :: r => (false, r)
    | _ => (false, l1)
  let d1 := signed.2.takeWhile isDigit09
  let r1 := signed.2.dropWhile isDigit09
  let fracDigits : List Char :=
    match r1 with
    | '.' :: r2 => r2.takeWhile isDigit09
    | _ => []
  if d1.isEmpty && fracDigits.isEmpty then none
  else
    let mag : JNum :=
      ⟨(digitsToNat d1 : Int) * pow10 fracDigits.length + (digitsToNat fracDigits : Int),
       pow10 fracDigits.length⟩
    some (if signed.1 then mag.neg else mag)

/-- `parseFloat` applied to a stored cell value (non-string, non-number
values stringify to text `parseFloat` rejects). -/
def parseFloatJS : JSVal → Option JNum
  | .num q => some q
  | .str s => parseFloatQ s.data
  | _ => none

/-- The numeric value a coordinate contributes inside a `SUM` range
(lines 228-232): `parseFloat` of the cell's displayed value, `0` on `NaN`. -/
def cellNumValue (cells : List (String × CellData)) (coord : String) : JNum :=
  match parseFloatJS (getCellD cells coord).value with
  | some q => q
  | none => JNum.ofInt 0

/-- The `SUM(range)` replacement (lines 226-234). -/
def rangeSum (cells : List (String × CellData)) (range : String) : JNum :=
  ((parseRange range).map (fun c => cellNumValue cells c)).foldl
    (fun sum val => JNum.add sum val) (JNum.ofInt 0)

/-- The bare-coordinate replacement (lines 237-242): the cell being
evaluated substitutes to `0`. -/
def refValue (cells : List (String × CellData)) (currentCell name : String) : JNum :=
  if name = currentCell then JNum.ofInt 0 else cellNumValue cells name

inductive Tok where
  | num (q : JNum)
  | ref (name : String)
  | sumRange (range : String)
  | plus
  | minus
  | star
  | slash
  | lparen
  | rparen
deriving DecidableEq, Repr

def tokenizeAux : Nat → List Char → Option (List Tok)
  | 0, _ => none
  | _ + 1, [] => some []
  | fuel + 1, c :: rest =>
    if isSpaceJS c then tokenizeAux fuel rest
    else if c = '+' then (tokenizeAux fuel rest).map (Tok.plus :: ·)
    else if c = '-' then (tokenizeAux fuel rest).map (Tok.minus :: ·)
    else if c = '*' then (tokenizeAux fuel rest).map (Tok.star :: ·)
    else if c = '/' then (tokenizeAux fuel rest).map (Tok.slash :: ·)
    else if c = '(' then (tokenizeAux fuel rest).map (Tok.lparen :: ·)
    else if c = ')' then (tokenizeAux fuel rest).map (Tok.rparen :: ·)
    else if isDigit09 c then
      let d1 := (c :: rest).takeWhile isDigit09
      let r1 := (c :: rest).dropWhile isDigit09
      match r1 with
      | '.' :: r2 =>
        let d2 := r2.takeWhile isDigit09
        let r3 := r2.dropWhile isDigit09
        (tokenizeAux fuel r3).map
          (Tok.num ⟨(digitsToNat d1 : Int) * pow10 d2.length + (digitsToNat d2 : Int),
                    pow10 d2.length⟩ :: ·)
      | _ => (tokenizeAux fuel r1).map (Tok.num (JNum.ofInt (digitsToNat d1 : Int)) :: ·)
    else if c = '.' then
      let d2 := rest.takeWhile isDigit09
      let r2 := rest.dropWhile isDigit09
      if d2.isEmpty then none
      else (tokenizeAux fuel r2).map
        (Tok.num ⟨(digitsToNat d2 : Int), pow10 d2.length⟩ :: ·)
    else if isUpperAZ c then
      let letters := c :: rest.takeWhile isUpperAZ
      let r1 := rest.dropWhile isUpperAZ
      if letters = ['S', 'U', 'M'] && (match r1 with | '(' :: _ => true | _ => false) then
        match r1 with
        | _ :: r2 =>
          let l1 := r2.takeWhile isUpperAZ
          let r3 := r2.dropWhile isUpperAZ
          let d1 := r3.takeWhile isDigit09
          let r4 := r3.dropWhile isDigit09
          match r4 with
          | ':' :: r5 =>
            let l2 := r5.takeWhile isUpperAZ
            let r6 := r5.dropWhile isUpperAZ
            let d2 := r6.takeWhile isDigit09
            let r7 := r6.dropWhile isDigit09
            match r7 with
            | ')' :: r8 =>
              if l1.isEmpty || d1.isEmpty || l2.isEmpty || d2.isEmpty then none
              else
                (tokenizeAux fuel r8).map
                  (Tok.sumRange (String.mk (l1 ++ d1 ++ [':'] ++ l2 ++ d2)) :: ·)
            | _ => none
          | _ => none
        | [] => none
      else
        let digits := r1.takeWhile isDigit09
        let r2 := r1.dropWhile isDigit09
        if digits.isEmpty then none
        else
          match r2 with
          | [] => (tokenizeAux fuel r2).map (Tok.ref (String.mk (letters ++ digits)) :: ·)
          | c2 :: _ =>
            if isWordChar c2 then none
            else (tokenizeAux fuel r2).map (Tok.ref (String.mk (letters ++ digits)) :: ·)
    else none

def tokenize (l : List Char) : Option (List Tok) := tokenizeAux (l.length + 1) l

/-- The call states of the recursive-descent evaluator for the expression
grammar `E -> T ((+|-) T)*`, `T -> F ((*|/) F)*`, `F -> (-|+)* P`,
`P -> number | coordinate | SUM(range) | ( E )` — the fragment of the
JavaScript expression evaluator the substituted formulas can reach. -/
inductive PCall where
  | e (ts : List Tok)
  | esuf (v : JNum) (ts : List Tok)
  | t (ts : List Tok)
  | tsuf (v : JNum) (ts : List Tok)
  | f (ts : List Tok)
  | p (ts : List Tok)

/-- One-step-fueled evaluator of the expression grammar; division by a
zero value is the non-finite case and fails.  The fuel only bounds the
call depth; `parseExpr` starts it above the worst case for the token
list. -/
def parseRun (cells : List (String × CellData)) (cur : String) :
    Nat → PCall → Option (JNum × List Tok)
  | 0, _ => none
  | fuel + 1, PCall.e ts =>
    match parseRun cells cur fuel (PCall.t ts) with
    | none => none
    | some (v, ts1) => parseRun cells cur fuel (PCall.esuf v ts1)
  | fuel + 1, PCall.esuf v ts =>
    match ts with
    | Tok.plus :: ts1 =>
      match parseRun cells cur fuel (PCall.t ts1) with
      | none => none
      | some (w, ts2) => parseRun cells cur fuel (PCall.esuf (v.add w) ts2)
    | Tok.minus :: ts1 =>
      match parseRun cells cur fuel (PCall.t ts1) with
      | none => none
      | some (w, ts2) => parseRun cells cur fuel (PCall.esuf (v.sub w) ts2)
    | _ => some (v, ts)
  | fuel + 1, PCall.t ts =>
    match parseRun cells cur fuel (PCall.f ts) with
    | none => none
    | some (v, ts1) => parseRun cells cur fuel (PCall.tsuf v ts1)
  | fuel + 1, PCall.tsuf v ts =>
    match ts with
    | Tok.star :: ts1 =>
      match parseRun cells cur fuel (PCall.f ts1) with
      | none => none
      | some (w, ts2) => parseRun cells cur fuel (PCall.tsuf (v.mul w) ts2)
    | Tok.slash :: ts1 =>
      match parseRun cells cur fuel (PCall.f ts1) with
      | none => none
      | some (w, ts2) =>
        if w.isZero then none else parseRun cells cur fuel (PCall.tsuf (v.div w) ts2)
    | _ => some (v, ts)
  | fuel + 1, PCall.f ts =>
    match ts with
    | Tok.minus :: ts1 =>
      match parseRun cells cur fuel (PCall.f ts1) with
      | none => none
      | some (v, ts2) => some (v.neg, ts2)
    | Tok.plus :: ts1 => parseRun cells cur fuel (PCall.f ts1)
    | _ => parseRun cells cur fuel (PCall.p ts)
  | fuel + 1, PCall.p ts =>
    match ts with
    | Tok.num q :: ts1 => some (q, ts1)
    | Tok.ref name :: ts1 => some (refValue cells cur name, ts1)
    | Tok.sumRange rg :: ts1 => some (rangeSum cells rg, ts1)
    | Tok.lparen :: ts1 =>
      match parseRun cells cur fuel (PCall.e ts1) with
      | some (v, Tok.rparen :: ts2) => some (v, ts2)
      | _ => none
    | _ => none

def parseExpr (cells : List (String × CellData)) (cur : String) (ts : List Tok) :
    Option (JNum × List Tok) :=
  parseRun cells cur (8 * ts.length + 16) (PCall.e ts)

/-- The `trim()` of line 223. -/
def trimJS (l : List Char) : List Char :=
  ((l.dropWhile isSpaceJS).reverse.dropWhile isSpaceJS).reverse

/-- `evaluate` on a string formula: strip the sentinel, trim, and run the
substitution/evaluation pipeline; parse failures and non-finite results
give the `#ERROR!` tag (lines 244-254). -/
def evaluateStr (cells : List (String × CellData)) (s : String) (cur : String) : JSVal :=
  let expr := trimJS (s.data.drop 1)
  match tokenize expr with
  | none => JSVal.str ("#ERROR!")
  | some ts =>
    match parseExpr cells cur ts with
    | some (v, []) => JSVal.num v
    | _ => JSVal.str ("#ERROR!")

/-- `evaluate` (lines 220-255); the enclosing `try/catch` makes a
non-string formula an `#ERROR!` as well. -/
def evaluate (cells : List (String × CellData)) (formula : JSVal) (cur : String) : JSVal :=
  match formula with
  | JSVal.str s => evaluateStr cells s cur
  | _ => JSVal.str ("#ERROR!")

/-! ## Dependency graph and cycle detection -/

def dependentsOf (g : List (String × List String)) (coord : String) : List String :=
  (alGet g coord).getD []

/-- Lines 143-148: ensure a node for `ref` exists, then `Set.add` the
dependent. -/
def addEdge (g : List (String × List String)) (ref coord : String) :
    List (String × List String) :=
  let g1 := if (alGet g ref).isNone then g ++ [(ref, [])] else g
  alUpdate g1 ref (fun deps => if coord ∈ deps then deps else deps ++ [coord])

/-- `removeDependencies` (lines 289-294): delete `coord` from every
dependent set (nodes themselves stay). -/
def removeDependencies (g : List (String × List String)) (coord : String) :
    List (String × List String) :=
  g.map (fun p => (p.1, p.2.erase coord))

/-- The dependency-edge installation of `setCell` (lines 140-148): clear
the cell's old edges, then add `ref -> coord` for every reference. -/
def installDependencies (g : List (String × List String)) (coord : String)
    (refs : List String) : List (String × List String) :=
  refs.foldl (fun g2 ref => addEdge g2 ref coord) (removeDependencies g coord)

def graphWeight (g : List (String × List String)) : Nat :=
  g.foldl (fun n p => n + 1 + p.2.length) 0

/-- The `for (dependent of dependents)` loop of `hasCircularReference`
(lines 272-278): run the search on each dependent, threading the shared
mutable `visited` set and returning `true` as soon as one branch finds a
cycle. -/
def hcrFold (recur : String → List String → List String → Bool × List String) :
    List String → List String → List String → Bool × List String
  | [], visited, _ => (false, visited)
  | d :: ds, visited, path =>
    match recur d visited path with
    | (true, visited1) => (true, visited1)
    | (false, visited1) => hcrFold recur ds visited1 path

/-- `hasCircularReference` (lines 264-282): depth-first search along
dependent edges with a shared `visited` set and a back-edge `path` set
(the JavaScript `path.add`/`path.delete` around the recursion is passing
the extended path down).  The JavaScript recursion always terminates
because every level adds a fresh coordinate to `visited`; the fuel only
bounds the depth, and `hasCircularReference` starts it above the maximal
possible depth, so the model computes the same answer. -/
def hcrAux (g : List (String × List String)) :
    Nat → String → List String → List String → Bool × List String
  | 0, _, visited, _ => (false, visited)
  | fuel + 1, coordinate, visited, path =>
    if coordinate ∈ path then (true, visited)
    else if coordinate ∈ visited then (false, visited)
    else
      hcrFold (hcrAux g fuel) (dependentsOf g coordinate)
        (visited ++ [coordinate]) (path ++ [coordinate])

def hasCircularReference (g : List (String × List String)) (coord : String) : Bool :=
  (hcrAux g (graphWeight g + 2) coord [] []).1

/-! ## setCell -/

/-- `value.startsWith('=')`. -/
def startsWithEq (s : String) : Bool :=
  match s.data with
  | c :: _ => c = '='
  | [] => false

/-- Lines 128-132: get or create the cell's Yjs map. -/
def ensureRecord (cells : List (String × CellData)) (coord : String) :
    List (String × CellData) :=
  match alGet cells coord with
  | some _ => cells
  | none => cells ++ [(coord, emptyCellData)]

/-- The raw-value branch of `setCell` (lines 162-172).  `!= null` is the
loose comparison, false exactly for `null` and `undefined`. -/
def rawSet (st : EngineState) (cells0 : List (String × CellData)) (coord : String)
    (v : JSVal) : EngineState :=
  let hadFormula :=
    match alGet cells0 coord with
    | some cd => cd.formula != JSVal.null && cd.formula != JSVal.undefined
    | none => false
  let g2 := if hadFormula then removeDependencies st.dependencyGraph coord
            else st.dependencyGraph
  { st with
    cells := alUpdate cells0 coord (fun _ => ⟨v, JSVal.null, JSVal.bool false⟩),
    dependencyGraph := g2 }

/-- `setCell` (lines 126-173). -/
def setCell (st : EngineState) (coord : String) (value : JSVal) : EngineState :=
  let cells0 := ensureRecord st.cells coord
  match value with
  | JSVal.str s =>
    if startsWithEq s then
      let g2 := installDependencies st.dependencyGraph coord (extractReferences s)
      if hasCircularReference g2 coord then
        { st with
          cells := alUpdate cells0 coord
            (fun _ => ⟨JSVal.str ("#CIRCULAR!"), JSVal.str s, JSVal.bool true⟩),
          dependencyGraph := g2 }
      else
        let result := evaluate cells0 (JSVal.str s) coord
        { st with
          cells := alUpdate cells0 coord
            (fun _ => ⟨result, JSVal.str s, JSVal.bool false⟩),
          dependencyGraph := g2 }
    else rawSet st cells0 coord value
  | v => rawSet st cells0 coord v

/-! ## Change propagation (`processChangedCells`, lines 393-449) -/

/-- `cellData && cellData.get('formula')` truthiness (lines 401-406, 429). -/
def hasFormulaCell (cells : List (String × CellData)) (coord : String) : Bool :=
  match alGet cells coord with
  | some cd => truthy cd.formula
  | none => false

/-- Step 1 of the pass: seed the recompute set with every changed cell
that holds a formula, in order. -/
def seedRecalc (cells : List (String × CellData)) (changed : List String) : List String :=
  changed.foldl (fun acc c => if hasFormulaCell cells c then addUnique acc c else acc) []

/-- The breadth-first dependent traversal (lines 408-420).  Each iteration
pops one queue entry; at most `changed.length + graphWeight g` entries are
ever queued, so the fuel makes the model run the loop to completion. -/
def bfsDependents (g : List (String × List String)) :
    Nat → List String → List String → List String → List String
  | 0, _, _, acc => acc
  | _ + 1, [], _, acc => acc
  | fuel + 1, q :: qs, visited, acc =>
    if q ∈ visited then bfsDependents g fuel qs visited acc
    else
      let deps := dependentsOf g q
      bfsDependents g fuel (qs ++ deps) (visited ++ [q]) (deps.foldl addUnique acc)

/-- The full recompute set of a pass (`toRecalculate` after lines 399-420). -/
def toRecalcList (st : EngineState) (changed : List String) : List String :=
  bfsDependents st.dependencyGraph
    (changed.length + graphWeight st.dependencyGraph + 1) changed []
    (seedRecalc st.cells changed)

/-- One iteration of the recompute loop (lines 427-438), parameterized by
the evaluator so that an evaluation that throws is representable; the
value is rewritten only when it strictly differs (`!==`) from the stored
one. -/
def recomputeStep
    (evalF : List (String × CellData) → JSVal → String → Except Unit JSVal)
    (st : EngineState) (coord : String) : Except Unit EngineState :=
  match alGet st.cells coord with
  | none => Except.ok st
  | some cd =>
    if truthy cd.formula then
      match evalF st.cells cd.formula coord with
      | Except.error e => Except.error e
      | Except.ok result =>
        if jsEq cd.value result then Except.ok st
        else
          Except.ok { st with cells := alUpdate st.cells coord (fun c => { c with value := result }) }
    else Except.ok st

/-- The recompute loop; on a thrown evaluation the loop aborts with the
state mutated so far (the `Bool` records that the pass threw). -/
def recomputeAll
    (evalF : List (String × CellData) → JSVal → String → Except Unit JSVal) :
    List String → EngineState → EngineState × Bool
  | [], st => (st, false)
  | c :: cs, st =>
    match recomputeStep evalF st c with
    | Except.ok st' => recomputeAll evalF cs st'
    | Except.error _ => (st, true)

/-- Result of one `processChangedCells` call: the final state, the
sequence of coordinates passed to `notifyObservers`, and whether the pass
re-threw an evaluation error (in which case the notification loops never
ran but the `finally` still cleared the flag). -/
structure PCCResult where
  state : EngineState
  notified : List String
  threw : Bool
deriving DecidableEq, Repr

/-- `processChangedCells` (lines 393-449) with a pluggable evaluator: set
`isProcessing`, run the recompute loop inside `try`, clear the flag in
`finally` whatever happened, then notify once per entry of `changedCells`
and once per member of `toRecalculate`. -/
def processChangedCellsWith
    (evalF : List (String × CellData) → JSVal → String → Except Unit JSVal)
    (st : EngineState) (changed : List String) : PCCResult :=
  let recalc := toRecalcList st changed
  let st1 := { st with isProcessing := true }
  match recomputeAll evalF recalc st1 with
  | (st2, true) => ⟨{ st2 with isProcessing := false }, [], true⟩
  | (st2, false) => ⟨{ st2 with isProcessing := false }, changed ++ recalc, false⟩

/-- The source's evaluator never throws out of `evaluate` (its body is one
`try/catch`), so the engine's own pass uses the total evaluator. -/
def evalOk (cells : List (String × CellData)) (f : JSVal) (cur : String) :
    Except Unit JSVal :=
  Except.ok (evaluate cells f cur)

def processChangedCells (st : EngineState) (changed : List String) : PCCResult :=
  processChangedCellsWith evalOk st changed

/-! ## The synchronous deep-observer dispatch

The constructor registers `this.cells.observeDeep(...)` (line 111), and
Yjs fires deep observers synchronously after each write: every
`cells.set` and every `cellData.set` inside `setCell` triggers
`handleDeepCellChanges` before the next statement of `setCell` runs. -/

/-- `rebuildDependenciesForCell` (lines 345-363): when the cell exists and
holds a truthy formula, clear the cell's old edges and re-install
`ref -> coord` for each reference, exactly as the formula branch of
`setCell` does.  Every formula the engine ever stores is a string, `null`
or `undefined`, so a truthy formula always reaches the string case. -/
def rebuildDependenciesForCell (st : EngineState) (coord : String) : EngineState :=
  match alGet st.cells coord with
  | none => st
  | some cd =>
    match cd.formula with
    | JSVal.str f =>
      if truthy (JSVal.str f) then
        { st with dependencyGraph :=
            installDependencies st.dependencyGraph coord (extractReferences f) }
      else st
    | _ => st

/-- `handleDeepCellChanges` (lines 301-337) for the event a single Yjs
write produces: the changed set is the one written coordinate.  If a
recompute pass is running, the guard (line 303) returns immediately;
otherwise the coordinate's dependencies are rebuilt when it holds a truthy
formula (lines 329-334) and one `processChangedCells` pass runs on it. -/
def dispatchCellEvent (st : EngineState) (coord : String) : EngineState :=
  if st.isProcessing then st
  else
    (processChangedCells
      (if hasFormulaCell st.cells coord then rebuildDependenciesForCell st coord else st)
      [coord]).state

/-- One `cellData.set(field, v)` together with the deep-observer dispatch
it fires synchronously before the next statement runs. -/
def setField (st : EngineState) (coord : String) (upd : CellData → CellData) : EngineState :=
  dispatchCellEvent { st with cells := alUpdate st.cells coord upd } coord

/-- Lines 128-132 with the dispatch: creating the record for a fresh
coordinate (`this.cells.set(coord, cellData)`) itself fires the observer
with that coordinate as the changed key. -/
def ensureFull (st : EngineState) (coord : String) : EngineState :=
  match alGet st.cells coord with
  | some _ => st
  | none => dispatchCellEvent { st with cells := st.cells ++ [(coord, emptyCellData)] } coord

/-- The raw-value branch (lines 162-172) with the dispatch after each of
its three field writes. -/
def rawSetFull (st : EngineState) (coord : String) (v : JSVal) : EngineState :=
  let hadFormula :=
    match alGet st.cells coord with
    | some cd => cd.formula != JSVal.null && cd.formula != JSVal.undefined
    | none => false
  let st1 := if hadFormula then
               { st with dependencyGraph := removeDependencies st.dependencyGraph coord }
             else st
  setField (setField (setField st1 coord (fun c => { c with value := v }))
    coord (fun c => { c with formula := JSVal.null }))
    coord (fun c => { c with error := JSVal.bool false })

/-- `setCell` (lines 126-173) together with the synchronous deep-observer
dispatch each of its Yjs writes fires: the record-creating `cells.set` and
each of the three `cellData.set` field writes is followed by a
`handleDeepCellChanges` call on that coordinate before the next statement
runs.  `setCell` above models only the method's own store writes; this is
the observable end-to-end behaviour of one `setCell` call. -/
def setCellFull (st : EngineState) (coord : String) (value : JSVal) : EngineState :=
  let st0 := ensureFull st coord
  match value with
  | JSVal.str s =>
    if startsWithEq s then
      let g2 := installDependencies st0.dependencyGraph coord (extractReferences s)
      let st1 : EngineState := { st0 with dependencyGraph := g2 }
      if hasCircularReference g2 coord then
        setField (setField (setField st1 coord
            (fun c => { c with value := JSVal.str ("#CIRCULAR!") }))
          coord (fun c => { c with formula := JSVal.str s }))
          coord (fun c => { c with error := JSVal.bool true })
      else
        let result := evaluate st1.cells (JSVal.str s) coord
        setField (setField (setField st1 coord (fun c => { c with value := result }))
          coord (fun c => { c with formula := JSVal.str s }))
          coord (fun c => { c with error := JSVal.bool false })
    else rawSetFull st0 coord value
  | v => rawSetFull st0 coord v

/-! ## Concrete engine states used by the witnesses -/

def sumState : EngineState :=
  setCell (setCell emptyEngine ("A1") (JSVal.str ("10"))) ("B1") (JSVal.str ("20"))

def cycleState : EngineState :=
  setCell (setCell (setCell emptyEngine ("A1") (JSVal.str ("1")))
    ("A2") (JSVal.str ("=A1+A3"))) ("A3") (JSVal.str ("=A1+A2"))

def unitFormulaState : EngineState :=
  setCell emptyEngine ("A1") (JSVal.str ("=1"))

/-- The spec's cycle scenario `A1=1`, `A2==A1+A3`, `A3==A1+A2`, entered in
that order, through the full dispatch model. -/
def cycleStateFull : EngineState :=
  setCellFull (setCellFull (setCellFull emptyEngine ("A1") (JSVal.str ("1")))
    ("A2") (JSVal.str ("=A1+A3"))) ("A3") (JSVal.str ("=A1+A2"))

end Spreadsheet

namespace Provider

/-!
Model of the sync driver `Libp2pProvider` (yjs-libp2p-provider.js): the
inbound pubsub message handler, the document-update handler, and the
teardown sequence of `destroy()`.  Peer identities are modelled as `Nat`;
the `origin` tag of a Yjs transaction is `provider` exactly when the
merge was applied by this provider's `_applyUpdate` (`origin === this`).
-/

inductive YOrigin where
  | provider
  | localEdit
deriving DecidableEq, Repr

/-- The three wire message kinds (payloads kept as opaque strings). -/
inductive PMsg where
  | update (delta : String)
  | syncRequest (stateVector : String)
  | syncResponse (delta : String)
deriving DecidableEq, Repr

/-- An inbound pubsub event: topic, sender, and the JSON-decoded payload
(`none` models a payload `JSON.parse` rejects, which the handler's
`try/catch` swallows). -/
structure PubsubEvt where
  topic : String
  sender : Nat
  data : Option PMsg
deriving DecidableEq, Repr

/-- Effects of processing one inbound message. -/
inductive PAction where
  | applyUpdate (delta : String) (origin : YOrigin)
  | publish (msg : PMsg)
deriving DecidableEq, Repr

/-- `_handlePubsubMessage` (lines 175-204): drop foreign-topic and own
messages; apply `update`/`sync-response` deltas with the provider as the
transaction origin (`_applyUpdate`, line 214); answer `sync-request` with
a broadcast `sync-response` computed by the store (`deltaFor`). -/
def handlePubsubMessage (selfTopic : String) (selfId : Nat)
    (deltaFor : String → String) (evt : PubsubEvt) : List PAction :=
  if evt.topic ≠ selfTopic then []
  else if evt.sender = selfId then []
  else
    match evt.data with
    | none => []
    | some (PMsg.update u) => [PAction.applyUpdate u YOrigin.provider]
    | some (PMsg.syncRequest sv) => [PAction.publish (PMsg.syncResponse (deltaFor sv))]
    | some (PMsg.syncResponse u) => [PAction.applyUpdate u YOrigin.provider]

/-- `_handleDocUpdate` (lines 156-168): a document update whose
transaction origin is this provider is not broadcast; any other origin is
broadcast as an `update` message. -/
def handleDocUpdate (delta : String) (origin : YOrigin) : Option PMsg :=
  match origin with
  | YOrigin.provider => none
  | YOrigin.localEdit => some (PMsg.update delta)

/-- The teardown actions of `destroy()` (lines 271-283), in source order. -/
inductive DestroyStep where
  | offDocUpdate
  | removePubsubMessageListener
  | removePeerDiscoveryListener
  | unsubscribeTopic
  | clearConnected
  | clearSynced
deriving DecidableEq, Repr

def destroySequence : List DestroyStep :=
  [DestroyStep.offDocUpdate,
   DestroyStep.removePubsubMessageListener,
   DestroyStep.removePeerDiscoveryListener,
   DestroyStep.unsubscribeTopic,
   DestroyStep.clearConnected,
   DestroyStep.clearSynced]

end Provider

/-! # Helper lemmas -/

open Spreadsheet Provider

namespace Spreadsheet

theorem alGet_append_of_none {α β : Type} [DecidableEq α] {m : List (α × β)}
    {k : α} (l : List (α × β)) (h : alGet m k = none) :
    alGet (m ++ l) k = alGet l k := by
  induction m with
  | nil => simp
  | cons p t ih =>
    obtain ⟨k', v⟩ := p
    by_cases hk : k' = k
    · simp [alGet, hk] at h
    · simp only [alGet, hk, if_neg hk, List.cons_append] at h ⊢
      exact ih h

theorem alGet_alUpdate_self {α β : Type} [DecidableEq α] {m : List (α × β)}
    {k : α} {v : β} (f : β → β) (h : alGet m k = some v) :
    alGet (alUpdate m k f) k = some (f v) := by
  induction m with
  | nil => simp [alGet] at h
  | cons p t ih =>
    obtain ⟨k', w⟩ := p
    by_cases hk : k' = k
    · simp only [alGet, if_pos hk] at h
      injection h with h2
      subst h2
      simp only [alUpdate, if_pos hk, alGet, if_pos hk]
    · simp only [alGet, if_neg hk] at h
      simp only [alUpdate, if_neg hk, alGet, if_neg hk]
      exact ih h

/-- Looking up the record `setCell` just ensured and rewrote. -/
theorem alGet_alUpdate_ensureRecord (cells : List (String × CellData))
    (coord : String) (v : CellData) :
    alGet (alUpdate (ensureRecord cells coord) coord (fun _ => v)) coord = some v := by
  unfold ensureRecord
  cases h : alGet cells coord with
  | some cd => exact alGet_alUpdate_self _ h
  | none =>
    have h1 : alGet (cells ++ [(coord, emptyCellData)]) coord = some emptyCellData := by
      rw [alGet_append_of_none _ h]
      simp [alGet]
    exact alGet_alUpdate_self _ h1

end Spreadsheet

/-! # Claims -/

/-- C8: every `processChangedCells` pass leaves the engine idle: whatever
the evaluator does (including throwing on some cell, the `Except.error`
case), the `finally` of `processChangedCellsWith` clears the
`isProcessing` guard, so the state returned has `isProcessing = false`;
in particular the engine's own pass `processChangedCells` does. -/
theorem C8_processing_flag_cleared :
    (∀ (evalF : List (String × CellData) → JSVal → String → Except Unit JSVal)
      (st : EngineState) (changed : List String),
      (processChangedCellsWith evalF st changed).state.isProcessing = false)
    ∧ ∀ (st : EngineState) (changed : List String),
      (processChangedCells st changed).state.isProcessing = false := by
  constructor
  · intro evalF st changed
    obtain ⟨⟨st2, b⟩, hr⟩ :
        ∃ p, recomputeAll evalF (toRecalcList st changed) { st with isProcessing := true } = p :=
      ⟨_, rfl⟩
    simp only [processChangedCellsWith, hr]
    cases b <;> rfl
  · intro st changed
    obtain ⟨⟨st2, b⟩, hr⟩ :
        ∃ p, recomputeAll evalOk (toRecalcList st changed) { st with isProcessing := true } = p :=
      ⟨_, rfl⟩
    simp only [processChangedCells, processChangedCellsWith, hr]
    cases b <;> rfl

/-- C7: a delta applied because of an inbound network message is never
re-broadcast.  Messages on a foreign topic or from the local peer are
ignored entirely; every `applyUpdate` action the pubsub handler emits is
tagged with the provider origin, and the document-update handler emits no
broadcast for that origin. -/
theorem C7_no_rebroadcast (topic : String) (selfId : Nat)
    (deltaFor : String → String) (evt : PubsubEvt) :
    ((evt.topic ≠ topic ∨ evt.sender = selfId) →
      handlePubsubMessage topic selfId deltaFor evt = [])
    ∧ ∀ (u : String) (o : YOrigin),
        PAction.applyUpdate u o ∈ handlePubsubMessage topic selfId deltaFor evt →
        o = YOrigin.provider ∧ handleDocUpdate u o = none := by
  constructor
  · intro h
    unfold handlePubsubMessage
    rcases h with h | h
    · rw [if_pos h]
    · by_cases ht : evt.topic ≠ topic
      · rw [if_pos ht]
      · rw [if_neg ht, if_pos h]
  · intro u o hmem
    unfold handlePubsubMessage at hmem
    by_cases ht : evt.topic ≠ topic
    · rw [if_pos ht] at hmem; simp at hmem
    · rw [if_neg ht] at hmem
      by_cases hs : evt.sender = selfId
      · rw [if_pos hs] at hmem; simp at hmem
      · rw [if_neg hs] at hmem
        match hdata : evt.data with
        | none => rw [hdata] at hmem; simp at hmem
        | some (PMsg.update w) =>
          rw [hdata] at hmem
          simp only [List.mem_singleton] at hmem
          cases hmem
          exact ⟨rfl, rfl⟩
        | some (PMsg.syncRequest sv) =>
          rw [hdata] at hmem; simp at hmem
        | some (PMsg.syncResponse w) =>
          rw [hdata] at hmem
          simp only [List.mem_singleton] at hmem
          cases hmem
          exact ⟨rfl, rfl⟩

/-- C7 witness: an `update` from another peer on the right topic is
applied with the provider origin and produces no broadcast. -/
theorem C7_witness :
    handleDocUpdate ("delta0") YOrigin.provider = none := by
  have h := (C7_no_rebroadcast ("doc") 0 (fun sv => sv)
    ⟨("doc"), 1, some (PMsg.update ("delta0"))⟩).2 ("delta0") YOrigin.provider
    (by decide)
  exact h.2

/-- C9 counterexample: `destroy()` does not unsubscribe from the channel
before detaching the document observer — `doc.off('update', ...)` is the
first teardown action, before the pubsub message listener is removed and
before the topic is unsubscribed.  The claim's required order fails on
the source order. -/
theorem C9_counterexample :
    ¬ (destroySequence.indexOf DestroyStep.unsubscribeTopic <
        destroySequence.indexOf DestroyStep.offDocUpdate
      ∧ destroySequence.indexOf DestroyStep.removePubsubMessageListener <
        destroySequence.indexOf DestroyStep.offDocUpdate) := by decide

/-- C9 amended: `destroy()` tears down in the source order: it detaches
the document-store update observer first, then removes the inbound pubsub
message listener, then the peer-discovery listener, and unsubscribes from
the topic last. -/
theorem C9_destroy_order :
    destroySequence.indexOf DestroyStep.offDocUpdate <
      destroySequence.indexOf DestroyStep.removePubsubMessageListener
    ∧ destroySequence.indexOf DestroyStep.removePubsubMessageListener <
      destroySequence.indexOf DestroyStep.removePeerDiscoveryListener
    ∧ destroySequence.indexOf DestroyStep.removePeerDiscoveryListener <
      destroySequence.indexOf DestroyStep.unsubscribeTopic := by decide

/-- C1 counterexample: for `setCell('A1', '=A1+1')` the self edge is
recorded and `hasCircularReference` reports a cycle for that edge alone,
and the cell ends marked as a circular reference (`error = true`) — the
claim's "setCell does not mark the cell as a circular reference" and
"cycle detection does not report a cycle for the self-edge alone" are both
false of the program.  (The displayed value does end as `1`: the
synchronous deep-observer pass fired by the formula write re-evaluates
`'=A1+1'` with `0` for the self-occurrence and overwrites the
`'#CIRCULAR!'` tag the circular branch wrote, before `setCell` returns.) -/
theorem C1_counterexample :
    hasCircularReference
      (installDependencies emptyEngine.dependencyGraph ("A1") (extractReferences ("=A1+1")))
      ("A1") = true
    ∧ alGet (setCellFull emptyEngine ("A1") (JSVal.str ("=A1+1"))).cells ("A1") =
        some ⟨JSVal.num ⟨1, 1⟩, JSVal.str ("=A1+1"), JSVal.bool true⟩
    ∧ (getCell (setCellFull emptyEngine ("A1") (JSVal.str ("=A1+1"))) ("A1")).error =
        JSVal.bool true := by decide

/-- C2 counterexample: `parseRange` does not take min/max of the corners —
with the corners reversed the row/column loops run zero iterations, so
`B1:A1` expands to no cells at all (`A1` is not in the expansion), and in
the spec's own example `SUM(B1:A1)` evaluates to `0` while `SUM(A1:B1)`
evaluates to `30`. -/
theorem C2_counterexample :
    parseRange ("B1:A1") = []
    ∧ ("A1") ∉ parseRange ("B1:A1")
    ∧ evaluate sumState.cells (JSVal.str ("=SUM(A1:B1)")) ("C1") = JSVal.num ⟨30, 1⟩
    ∧ evaluate sumState.cells (JSVal.str ("=SUM(B1:A1)")) ("C1") = JSVal.num ⟨0, 1⟩
    ∧ jsEq (evaluate sumState.cells (JSVal.str ("=SUM(B1:A1)")) ("C1"))
        (evaluate sumState.cells (JSVal.str ("=SUM(A1:B1)")) ("C1")) = false := by decide

/-- C4 counterexample: an acyclic formula whose evaluation fails
(`=1/0`, division producing a non-finite result) stores the generic
`#ERROR!` tag as the value, but the stored `error` flag is `false`, not
`true`: the non-circular branch of `setCell` writes `error = false`
unconditionally, so the flag does not reflect the evaluation outcome. -/
theorem C4_counterexample :
    alGet (setCell emptyEngine ("A1") (JSVal.str ("=1/0"))).cells ("A1") =
      some ⟨JSVal.str ("#ERROR!"), JSVal.str ("=1/0"), JSVal.bool false⟩
    ∧ (getCell (setCell emptyEngine ("A1") (JSVal.str ("=1/0"))) ("A1")).error ≠
        JSVal.bool true := by decide

/-- C5 counterexample: a changed cell that holds a formula is a member of
both notification loops (`changedCells.forEach` and
`toRecalculate.forEach`), so one pass notifies observers twice for it —
not exactly once per distinct coordinate of the union. -/
theorem C5_counterexample :
    ("A1") ∈ toRecalcList unitFormulaState (["A1"])
    ∧ (processChangedCells unitFormulaState (["A1"])).notified.count ("A1") = 2 := by decide

namespace Spreadsheet

theorem alGet_append_left {α β : Type} [DecidableEq α] {m : List (α × β)}
    {k : α} {v : β} (l : List (α × β)) (h : alGet m k = some v) :
    alGet (m ++ l) k = some v := by
  induction m with
  | nil => simp [alGet] at h
  | cons p t ih =>
    obtain ⟨k', w⟩ := p
    by_cases hk : k' = k
    · simp only [alGet, if_pos hk] at h
      simp only [List.cons_append, alGet, if_pos hk]
      exact h
    · simp only [alGet, if_neg hk] at h
      simp only [List.cons_append, alGet, if_neg hk]
      exact ih h

theorem alGet_alUpdate_other {α β : Type} [DecidableEq α] {m : List (α × β)}
    {k k' : α} (f : β → β) (h : k' ≠ k) :
    alGet (alUpdate m k f) k' = alGet m k' := by
  induction m with
  | nil => rfl
  | cons p t ih =>
    obtain ⟨k0, v0⟩ := p
    by_cases hk : k0 = k
    · have hk0 : ¬ (k0 = k') := by rw [hk]; exact fun hh => h hh.symm
      simp only [alUpdate, if_pos hk, alGet, if_neg hk0]
    · simp only [alUpdate, if_neg hk, alGet]
      by_cases hk0 : k0 = k'
      · simp only [if_pos hk0]
      · simp only [if_neg hk0]
        exact ih

theorem mem_dependentsOf {g : List (String × List String)} {r c : String} :
    c ∈ dependentsOf g r ↔ ∃ deps, alGet g r = some deps ∧ c ∈ deps := by
  unfold dependentsOf
  cases h : alGet g r <;> simp

/-- Installing the edge `ref -> c` makes `c` a dependent of `ref`. -/
theorem addEdge_self_mem (g : List (String × List String)) (ref c : String) :
    c ∈ dependentsOf (addEdge g ref c) ref := by
  rw [mem_dependentsOf]
  unfold addEdge
  by_cases hn : (alGet g ref).isNone
  · rw [if_pos hn]
    have hnone : alGet g ref = none := Option.isNone_iff_eq_none.mp hn
    have h1 : alGet (g ++ [(ref, ([] : List String))]) ref = some [] := by
      rw [alGet_append_of_none _ hnone]; simp [alGet]
    refine ⟨_, alGet_alUpdate_self _ h1, ?_⟩
    simp
  · rw [if_neg hn]
    obtain ⟨deps, hdeps⟩ : ∃ deps, alGet g ref = some deps := by
      cases hd : alGet g ref with
      | none => rw [hd] at hn; simp at hn
      | some deps => exact ⟨deps, rfl⟩
    refine ⟨_, alGet_alUpdate_self _ hdeps, ?_⟩
    by_cases hc : c ∈ deps
    · simp [hc]
    · simp [hc]

/-- `addEdge` never removes a dependent. -/
theorem addEdge_preserves_mem (g : List (String × List String)) (ref c' r c : String)
    (h : c ∈ dependentsOf g r) : c ∈ dependentsOf (addEdge g ref c') r := by
  rw [mem_dependentsOf] at h ⊢
  obtain ⟨deps, hget, hmem⟩ := h
  unfold addEdge
  have hg1 : alGet (if (alGet g ref).isNone then g ++ [(ref, [])] else g) r = some deps := by
    by_cases hn : (alGet g ref).isNone
    · rw [if_pos hn]; exact alGet_append_left _ hget
    · rw [if_neg hn]; exact hget
  by_cases hr : r = ref
  · subst hr
    refine ⟨_, alGet_alUpdate_self _ hg1, ?_⟩
    by_cases hc : c' ∈ deps
    · simp only [if_pos hc]; exact hmem
    · simp only [if_neg hc]; exact List.mem_append_left _ hmem
  · rw [alGet_alUpdate_other _ hr]
    exact ⟨deps, hg1, hmem⟩

/-- Folding `addEdge _ _ coord` over the references preserves/creates the
self edge whenever `coord` is one of the references. -/
theorem foldl_addEdge_mem (coord : String) (refs : List String) :
    ∀ g0 : List (String × List String),
      (coord ∈ refs ∨ coord ∈ dependentsOf g0 coord) →
      coord ∈ dependentsOf (refs.foldl (fun g2 ref => addEdge g2 ref coord) g0) coord := by
  induction refs with
  | nil =>
    intro g0 h
    rcases h with h | h
    · simp at h
    · simpa using h
  | cons r rs ih =>
    intro g0 h
    simp only [List.foldl_cons]
    apply ih
    rcases h with h | h
    · rcases List.mem_cons.mp h with h | h
      · subst h
        exact Or.inr (addEdge_self_mem g0 coord coord)
      · exact Or.inl h
    · exact Or.inr (addEdge_preserves_mem g0 r coord coord coord h)

/-- A formula referencing its own cell installs the self edge. -/
theorem installDependencies_self_mem (g : List (String × List String))
    (coord : String) (refs : List String) (h : coord ∈ refs) :
    coord ∈ dependentsOf (installDependencies g coord refs) coord :=
  foldl_addEdge_mem coord refs _ (Or.inl h)

/-- If the wanted coordinate is among the dependents being scanned and is
on the current path, the scan of `hasCircularReference` reports a cycle. -/
theorem hcrFold_mem_path_true (g : List (String × List String)) (fuel : Nat)
    (hfuel : 1 ≤ fuel) (coord : String) (ds : List String) :
    ∀ visited path, coord ∈ ds → coord ∈ path →
      (hcrFold (hcrAux g fuel) ds visited path).1 = true := by
  induction ds with
  | nil => intro visited path h _; simp at h
  | cons d ds' ih =>
    intro visited path hmem hpath
    rcases List.mem_cons.mp hmem with hd | hd
    · subst hd
      obtain ⟨f, rfl⟩ : ∃ f, fuel = f + 1 := ⟨fuel - 1, by omega⟩
      simp only [hcrFold, hcrAux, if_pos hpath]
    · simp only [hcrFold]
      obtain ⟨⟨b, vis1⟩, hr⟩ : ∃ p, hcrAux g fuel d visited path = p := ⟨_, rfl⟩
      rw [hr]
      cases b
      · exact ih vis1 path hd hpath
      · rfl

/-- A self edge alone makes `hasCircularReference` report a cycle. -/
theorem hasCircularReference_self_edge (g : List (String × List String))
    (coord : String) (h : coord ∈ dependentsOf g coord) :
    hasCircularReference g coord = true := by
  unfold hasCircularReference
  show (hcrAux g (graphWeight g + 1 + 1) coord [] []).1 = true
  simp only [hcrAux, List.mem_nil_iff, if_false, List.nil_append]
  exact hcrFold_mem_path_true g (graphWeight g + 1) (by omega) coord
    (dependentsOf g coord) [coord] [coord] h (List.mem_singleton.mpr rfl)

/-- A formula text starting with the sentinel is a truthy (nonempty)
string. -/
theorem truthy_str_of_startsWithEq (f : String) (hf : startsWithEq f = true) :
    truthy (JSVal.str f) = true := by
  have hne : f ≠ ("") := by
    intro hc
    subst hc
    simp [startsWithEq] at hf
  simp [truthy, bne, hne]

/-- The circular branch of `setCell`: what the three `cellData.set` calls
leave in the store. -/
theorem setCell_circular_eq (st : EngineState) (coord f : String)
    (hf : startsWithEq f = true)
    (hc : hasCircularReference
      (installDependencies st.dependencyGraph coord (extractReferences f)) coord = true) :
    alGet (setCell st coord (JSVal.str f)).cells coord =
      some ⟨JSVal.str ("#CIRCULAR!"), JSVal.str f, JSVal.bool true⟩ := by
  simp only [setCell, hf, hc, if_true]
  exact alGet_alUpdate_ensureRecord _ _ _

/-- The non-circular branch of `setCell`. -/
theorem setCell_eval_eq (st : EngineState) (coord f : String)
    (hf : startsWithEq f = true)
    (hc : hasCircularReference
      (installDependencies st.dependencyGraph coord (extractReferences f)) coord = false) :
    alGet (setCell st coord (JSVal.str f)).cells coord =
      some ⟨evaluate (ensureRecord st.cells coord) (JSVal.str f) coord,
            JSVal.str f, JSVal.bool false⟩ := by
  simp only [setCell, hf, hc, if_true, Bool.false_eq_true, if_false]
  exact alGet_alUpdate_ensureRecord _ _ _

/-- The two record fields the recompute loop never writes (it only ever
rewrites `value`, line 436). -/
def feOf (cd : CellData) : JSVal × JSVal := (cd.formula, cd.error)

theorem alGet_alUpdate_value (m : List (String × CellData)) (k : String) (r : JSVal)
    (x : String) :
    Option.map feOf (alGet (alUpdate m k (fun c => { c with value := r })) x)
      = Option.map feOf (alGet m x) := by
  induction m with
  | nil => rfl
  | cons p t ih =>
    obtain ⟨a, b⟩ := p
    simp only [alUpdate]
    by_cases hk : a = k
    · rw [if_pos hk]
      simp only [alGet]
      by_cases hx : a = x
      · rw [if_pos hx, if_pos hx]
        rfl
      · rw [if_neg hx, if_neg hx]
    · rw [if_neg hk]
      simp only [alGet]
      by_cases hx : a = x
      · rw [if_pos hx, if_pos hx]
      · rw [if_neg hx, if_neg hx]
        exact ih

theorem recomputeStep_fe
    (evalF : List (String × CellData) → JSVal → String → Except Unit JSVal)
    (st : EngineState) (c x : String) (st' : EngineState)
    (h : recomputeStep evalF st c = Except.ok st') :
    Option.map feOf (alGet st'.cells x) = Option.map feOf (alGet st.cells x) := by
  unfold recomputeStep at h
  split at h
  · injection h with h2
    subst h2
    rfl
  · split at h
    · split at h
      · injection h
      · split at h
        · injection h with h2
          subst h2
          rfl
        · injection h with h2
          subst h2
          exact alGet_alUpdate_value st.cells c _ x
    · injection h with h2
      subst h2
      rfl

theorem recomputeStep_graph
    (evalF : List (String × CellData) → JSVal → String → Except Unit JSVal)
    (st : EngineState) (c : String) (st' : EngineState)
    (h : recomputeStep evalF st c = Except.ok st') :
    st'.dependencyGraph = st.dependencyGraph := by
  unfold recomputeStep at h
  split at h
  · injection h with h2
    subst h2
    rfl
  · split at h
    · split at h
      · injection h
      · split at h
        · injection h with h2
          subst h2
          rfl
        · injection h with h2
          subst h2
          rfl
    · injection h with h2
      subst h2
      rfl

theorem recomputeAll_fe
    (evalF : List (String × CellData) → JSVal → String → Except Unit JSVal)
    (x : String) :
    ∀ (cs : List String) (st : EngineState),
      Option.map feOf (alGet (recomputeAll evalF cs st).1.cells x)
        = Option.map feOf (alGet st.cells x) := by
  intro cs
  induction cs with
  | nil => intro st; rfl
  | cons c cs ih =>
    intro st
    unfold recomputeAll
    cases hs : recomputeStep evalF st c with
    | ok st' => exact (ih st').trans (recomputeStep_fe evalF st c x st' hs)
    | error e => rfl

theorem recomputeAll_graph
    (evalF : List (String × CellData) → JSVal → String → Except Unit JSVal) :
    ∀ (cs : List String) (st : EngineState),
      (recomputeAll evalF cs st).1.dependencyGraph = st.dependencyGraph := by
  intro cs
  induction cs with
  | nil => intro st; rfl
  | cons c cs ih =>
    intro st
    unfold recomputeAll
    cases hs : recomputeStep evalF st c with
    | ok st' => exact (ih st').trans (recomputeStep_graph evalF st c st' hs)
    | error e => rfl

theorem processChangedCells_fe (st : EngineState) (changed : List String) (x : String) :
    Option.map feOf (alGet (processChangedCells st changed).state.cells x)
      = Option.map feOf (alGet st.cells x) := by
  obtain ⟨⟨st2, b⟩, hr⟩ :
      ∃ p, recomputeAll evalOk (toRecalcList st changed) { st with isProcessing := true } = p :=
    ⟨_, rfl⟩
  have h2 := recomputeAll_fe evalOk x (toRecalcList st changed) { st with isProcessing := true }
  rw [hr] at h2
  simp only [processChangedCells, processChangedCellsWith, hr]
  cases b
  · exact h2
  · exact h2

theorem processChangedCells_graph (st : EngineState) (changed : List String) :
    (processChangedCells st changed).state.dependencyGraph = st.dependencyGraph := by
  obtain ⟨⟨st2, b⟩, hr⟩ :
      ∃ p, recomputeAll evalOk (toRecalcList st changed) { st with isProcessing := true } = p :=
    ⟨_, rfl⟩
  have h2 := recomputeAll_graph evalOk (toRecalcList st changed) { st with isProcessing := true }
  rw [hr] at h2
  simp only [processChangedCells, processChangedCellsWith, hr]
  cases b
  · exact h2
  · exact h2

theorem rebuildDependenciesForCell_cells (st : EngineState) (c : String) :
    (rebuildDependenciesForCell st c).cells = st.cells := by
  unfold rebuildDependenciesForCell
  split
  · rfl
  · split
    · split
      · rfl
      · rfl
    · rfl

theorem dispatchCellEvent_fe (st : EngineState) (c x : String) :
    Option.map feOf (alGet (dispatchCellEvent st c).cells x)
      = Option.map feOf (alGet st.cells x) := by
  unfold dispatchCellEvent
  by_cases hp : st.isProcessing
  · rw [if_pos hp]
  · rw [if_neg hp]
    by_cases hfc : hasFormulaCell st.cells c
    · rw [if_pos hfc]
      have h1 := processChangedCells_fe (rebuildDependenciesForCell st c) [c] x
      rw [rebuildDependenciesForCell_cells] at h1
      exact h1
    · rw [if_neg hfc]
      exact processChangedCells_fe st [c] x

theorem dispatchCellEvent_graph_of_noFormula (st : EngineState) (c : String)
    (h : hasFormulaCell st.cells c = false) :
    (dispatchCellEvent st c).dependencyGraph = st.dependencyGraph := by
  unfold dispatchCellEvent
  by_cases hp : st.isProcessing
  · rw [if_pos hp]
  · rw [if_neg hp, h, if_neg (by simp)]
    exact processChangedCells_graph st [c]

theorem hasFormulaCell_fresh (cells : List (String × CellData)) (coord : String)
    (h : alGet cells coord = none) :
    hasFormulaCell (cells ++ [(coord, emptyCellData)]) coord = false := by
  unfold hasFormulaCell
  rw [alGet_append_of_none _ h]
  simp [alGet, emptyCellData, truthy]

theorem ensureFull_graph (st : EngineState) (coord : String) :
    (ensureFull st coord).dependencyGraph = st.dependencyGraph := by
  unfold ensureFull
  cases h : alGet st.cells coord with
  | some cd => rfl
  | none =>
    exact dispatchCellEvent_graph_of_noFormula
      ⟨st.cells ++ [(coord, emptyCellData)], st.dependencyGraph, st.isProcessing⟩ coord
      (hasFormulaCell_fresh st.cells coord h)

theorem fe_some_elim (cells : List (String × CellData)) (x : String) (p : JSVal × JSVal)
    (h : Option.map feOf (alGet cells x) = some p) :
    ∃ v, alGet cells x = some ⟨v, p.1, p.2⟩ := by
  cases hd : alGet cells x with
  | none =>
    rw [hd] at h
    simp at h
  | some cd =>
    rw [hd] at h
    have h3 : feOf cd = p := by injection h
    obtain ⟨v, f, e⟩ := cd
    have hf : f = p.1 := congrArg Prod.fst h3
    have he : e = p.2 := congrArg Prod.snd h3
    subst hf
    subst he
    exact ⟨v, rfl⟩

theorem ensureFull_mem (st : EngineState) (coord : String) :
    ∃ cd, alGet (ensureFull st coord).cells coord = some cd := by
  unfold ensureFull
  cases h : alGet st.cells coord with
  | some cd => exact ⟨cd, h⟩
  | none =>
    have h1 : alGet (st.cells ++ [(coord, emptyCellData)]) coord = some emptyCellData := by
      rw [alGet_append_of_none _ h]
      simp [alGet]
    have h2 : Option.map feOf
        (alGet (dispatchCellEvent
          ⟨st.cells ++ [(coord, emptyCellData)], st.dependencyGraph, st.isProcessing⟩
          coord).cells coord)
        = Option.map feOf (alGet (st.cells ++ [(coord, emptyCellData)]) coord) :=
      dispatchCellEvent_fe
        ⟨st.cells ++ [(coord, emptyCellData)], st.dependencyGraph, st.isProcessing⟩ coord coord
    rw [h1] at h2
    obtain ⟨v, hv⟩ := fe_some_elim _ _ _ h2
    exact ⟨⟨v, (feOf emptyCellData).1, (feOf emptyCellData).2⟩, hv⟩

theorem setField_fe_value (st : EngineState) (coord : String) (r : JSVal) (x : String) :
    Option.map feOf (alGet (setField st coord (fun c => { c with value := r })).cells x)
      = Option.map feOf (alGet st.cells x) := by
  have h1 : Option.map feOf
        (alGet (setField st coord (fun c => { c with value := r })).cells x)
      = Option.map feOf
        (alGet (alUpdate st.cells coord (fun c => { c with value := r })) x) :=
    dispatchCellEvent_fe
      ⟨alUpdate st.cells coord (fun c => { c with value := r }),
       st.dependencyGraph, st.isProcessing⟩ coord x
  rw [h1, alGet_alUpdate_value]

theorem setField_formula_at (st : EngineState) (coord : String) (vf : JSVal) (cd : CellData)
    (h : alGet st.cells coord = some cd) :
    Option.map feOf (alGet (setField st coord (fun c => { c with formula := vf })).cells coord)
      = some (vf, cd.error) := by
  have h1 : Option.map feOf
        (alGet (setField st coord (fun c => { c with formula := vf })).cells coord)
      = Option.map feOf
        (alGet (alUpdate st.cells coord (fun c => { c with formula := vf })) coord) :=
    dispatchCellEvent_fe
      ⟨alUpdate st.cells coord (fun c => { c with formula := vf }),
       st.dependencyGraph, st.isProcessing⟩ coord coord
  rw [h1, alGet_alUpdate_self _ h]
  rfl

theorem setField_error_at (st : EngineState) (coord : String) (ve : JSVal) (cd : CellData)
    (h : alGet st.cells coord = some cd) :
    Option.map feOf (alGet (setField st coord (fun c => { c with error := ve })).cells coord)
      = some (cd.formula, ve) := by
  have h1 : Option.map feOf
        (alGet (setField st coord (fun c => { c with error := ve })).cells coord)
      = Option.map feOf
        (alGet (alUpdate st.cells coord (fun c => { c with error := ve })) coord) :=
    dispatchCellEvent_fe
      ⟨alUpdate st.cells coord (fun c => { c with error := ve }),
       st.dependencyGraph, st.isProcessing⟩ coord coord
  rw [h1, alGet_alUpdate_self _ h]
  rfl

/-- Through a value write, a formula write and an error write — each with
its synchronous dispatch — the final record at `coord` holds the written
formula and error fields, whatever the dispatched recompute passes did to
the `value` fields. -/
theorem setField_chain_fe (st : EngineState) (coord : String) (r vf ve : JSVal)
    (cd : CellData) (h : alGet st.cells coord = some cd) :
    ∃ v, alGet (setField (setField (setField st coord (fun c => { c with value := r }))
        coord (fun c => { c with formula := vf }))
        coord (fun c => { c with error := ve })).cells coord = some ⟨v, vf, ve⟩ := by
  have h1 : Option.map feOf
      (alGet (setField st coord (fun c => { c with value := r })).cells coord)
      = some (feOf cd) := by
    rw [setField_fe_value st coord r coord, h]
    rfl
  obtain ⟨v1, hv1⟩ := fe_some_elim _ _ _ h1
  have h2 := setField_formula_at
    (setField st coord (fun c => { c with value := r })) coord vf _ hv1
  obtain ⟨v2, hv2⟩ := fe_some_elim _ _ _ h2
  have h3 := setField_error_at
    (setField (setField st coord (fun c => { c with value := r }))
      coord (fun c => { c with formula := vf })) coord ve _ hv2
  obtain ⟨v3, hv3⟩ := fe_some_elim _ _ _ h3
  exact ⟨v3, hv3⟩

/-- The circular branch of the full-dispatch `setCell`: the record one
`setCell` call leaves behind keeps the formula text as entered and
`error = true`; its value is whatever the dispatched recompute passes
last wrote (the tag written by the branch is overwritten as soon as a
pass re-evaluates the formula to a strictly different value). -/
theorem setCellFull_circular_fields (st : EngineState) (coord f : String)
    (hf : startsWithEq f = true)
    (hc : hasCircularReference
      (installDependencies st.dependencyGraph coord (extractReferences f)) coord = true) :
    ∃ v, alGet (setCellFull st coord (JSVal.str f)).cells coord =
      some ⟨v, JSVal.str f, JSVal.bool true⟩ := by
  have hc' : hasCircularReference
      (installDependencies (ensureFull st coord).dependencyGraph coord
        (extractReferences f)) coord = true := by
    rw [ensureFull_graph]
    exact hc
  obtain ⟨cd0, hcd0⟩ := ensureFull_mem st coord
  simp only [setCellFull, hf, hc', if_true]
  exact setField_chain_fe
    ⟨(ensureFull st coord).cells,
     installDependencies (ensureFull st coord).dependencyGraph coord (extractReferences f),
     (ensureFull st coord).isProcessing⟩
    coord (JSVal.str ("#CIRCULAR!")) (JSVal.str f) (JSVal.bool true) cd0 hcd0

end Spreadsheet

/-- C3 counterexample: the spec's own scenario `A1=1`, `A2==A1+A3`,
`A3==A1+A2` entered in that order, with the synchronous deep-observer
dispatch each Yjs write fires.  The observer passes re-evaluate `A3`
(`2`, then `4`) and its dependent `A2` (`3`, then `5`) before the third
`setCell` returns: `A3` ends with the numeric value `4` — not the
cycle-error tag, although `error = true` and the formula text survive —
and `A2` shows `5`.  The claim's "stores the cycle-error tag as the
cell's value" and "does not evaluate the formula", and the spec's
"neither A2 nor A3 shows a numeric result", are false of the program. -/
theorem C3_counterexample :
    alGet cycleStateFull.cells ("A3") =
      some ⟨JSVal.num ⟨4, 1⟩, JSVal.str ("=A1+A2"), JSVal.bool true⟩
    ∧ (getCell cycleStateFull ("A3")).value ≠ JSVal.str ("#CIRCULAR!")
    ∧ alGet cycleStateFull.cells ("A2") =
      some ⟨JSVal.num ⟨5, 1⟩, JSVal.str ("=A1+A3"), JSVal.bool false⟩ := by decide

/-- C3 (amended): when the installed edges make the cycle detector report
a cycle through the cell, the circular branch of `setCell` itself writes
the `'#CIRCULAR!'` tag, the formula text as entered and `error = true`,
and skips its own evaluation call; but each of those Yjs writes fires the
deep observer synchronously, and the observer passes re-evaluate the
formula cells in the dependency closure, so when `setCell` returns the
record keeps the formula text and `error = true` while the tag has been
overwritten by an evaluation result — in the spec's scenario `A3` ends at
the numeric value `4` and its dependent `A2` at `5`. -/
theorem C3_cycle_tag_overwritten (st : EngineState) (coord f : String)
    (hf : startsWithEq f = true)
    (hc : hasCircularReference
      (installDependencies st.dependencyGraph coord (extractReferences f)) coord = true) :
    alGet (setCell st coord (JSVal.str f)).cells coord =
      some ⟨JSVal.str ("#CIRCULAR!"), JSVal.str f, JSVal.bool true⟩
    ∧ (∃ v, alGet (setCellFull st coord (JSVal.str f)).cells coord =
        some ⟨v, JSVal.str f, JSVal.bool true⟩)
    ∧ alGet cycleStateFull.cells ("A3") =
        some ⟨JSVal.num ⟨4, 1⟩, JSVal.str ("=A1+A2"), JSVal.bool true⟩
    ∧ alGet cycleStateFull.cells ("A2") =
        some ⟨JSVal.num ⟨5, 1⟩, JSVal.str ("=A1+A3"), JSVal.bool false⟩ :=
  ⟨setCell_circular_eq st coord f hf hc,
   setCellFull_circular_fields st coord f hf hc, by decide, by decide⟩

/-- C3 witness: the third assignment of the spec's scenario, applied
through the full dispatch model: the final record keeps the formula
`'=A1+A2'` and `error = true` around some (numeric) value. -/
theorem C3_witness :
    ∃ v, alGet (setCellFull (setCellFull (setCellFull emptyEngine ("A1") (JSVal.str ("1")))
        ("A2") (JSVal.str ("=A1+A3"))) ("A3") (JSVal.str ("=A1+A2"))).cells ("A3") =
      some ⟨v, JSVal.str ("=A1+A2"), JSVal.bool true⟩ :=
  (C3_cycle_tag_overwritten
    (setCellFull (setCellFull emptyEngine ("A1") (JSVal.str ("1")))
      ("A2") (JSVal.str ("=A1+A3")))
    ("A3") ("=A1+A2") (by decide) (by decide)).2.1

/-- C1 (amended): a formula that references its own cell installs the self
dependency edge, and `hasCircularReference` reports a cycle for that edge
alone, so the circular branch of `setCell` writes the `'#CIRCULAR!'` tag,
the formula text and `error = true`; but each of those Yjs writes fires
the deep observer synchronously, and the pass fired by the formula write
re-evaluates the formula with `0` substituted for the self-occurrence and
overwrites the tag before `setCell` returns: the final record keeps the
formula text and `error = true`, while its value is the evaluation
result — `1` for `'=A1+1'` — and not the tag. -/
theorem C1_selfref_circular_overwritten (st : EngineState) (coord f : String)
    (hf : startsWithEq f = true) (hm : coord ∈ extractReferences f) :
    coord ∈ dependentsOf
      (installDependencies st.dependencyGraph coord (extractReferences f)) coord
    ∧ hasCircularReference
      (installDependencies st.dependencyGraph coord (extractReferences f)) coord = true
    ∧ alGet (setCell st coord (JSVal.str f)).cells coord =
      some ⟨JSVal.str ("#CIRCULAR!"), JSVal.str f, JSVal.bool true⟩
    ∧ (∃ v, alGet (setCellFull st coord (JSVal.str f)).cells coord =
        some ⟨v, JSVal.str f, JSVal.bool true⟩)
    ∧ alGet (setCellFull emptyEngine ("A1") (JSVal.str ("=A1+1"))).cells ("A1") =
        some ⟨JSVal.num ⟨1, 1⟩, JSVal.str ("=A1+1"), JSVal.bool true⟩ := by
  have hself := installDependencies_self_mem st.dependencyGraph coord (extractReferences f) hm
  have hcirc := hasCircularReference_self_edge _ coord hself
  exact ⟨hself, hcirc, setCell_circular_eq st coord f hf hcirc,
    setCellFull_circular_fields st coord f hf hcirc, by decide⟩

/-- C1 witness: `A1 = '=A1+1'` in the empty document — the self edge is
detected as a cycle and the final record holds value `1`, the formula and
`error = true`. -/
theorem C1_witness :
    alGet (setCellFull emptyEngine ("A1") (JSVal.str ("=A1+1"))).cells ("A1") =
      some ⟨JSVal.num ⟨1, 1⟩, JSVal.str ("=A1+1"), JSVal.bool true⟩ :=
  (C1_selfref_circular_overwritten emptyEngine ("A1") ("=A1+1")
    (by decide) (by decide)).2.2.2.2

/-- C4 (amended): for an acyclic formula, `setCell` stores the evaluation
result as the value (the generic `#ERROR!` tag when evaluation fails on a
parse error or non-finite result), keeps the formula, and always writes
`error = false` in this branch — the stored flag does not become `true`
on evaluation failure; no exception escapes (`setCell` is total and the
store is written in every case). -/
theorem C4_eval_failure_stores_error_tag (st : EngineState) (coord f : String)
    (hf : startsWithEq f = true)
    (hc : hasCircularReference
      (installDependencies st.dependencyGraph coord (extractReferences f)) coord = false) :
    alGet (setCell st coord (JSVal.str f)).cells coord =
      some ⟨evaluate (ensureRecord st.cells coord) (JSVal.str f) coord,
            JSVal.str f, JSVal.bool false⟩
    ∧ (evaluate (ensureRecord st.cells coord) (JSVal.str f) coord = JSVal.str ("#ERROR!") →
        getCell (setCell st coord (JSVal.str f)) coord =
          ⟨JSVal.str ("#ERROR!"), JSVal.str f, JSVal.bool false⟩) := by
  have hrec := setCell_eval_eq st coord f hf hc
  refine ⟨hrec, fun he => ?_⟩
  have h1 : truthy (JSVal.str ("#ERROR!")) = true := by decide
  have h2 := truthy_str_of_startsWithEq f hf
  have h3 : truthy (JSVal.bool false) = false := by decide
  unfold getCell getCellD
  rw [hrec, he]
  simp [coerceView, h1, h2, h3]

/-- C4 witness: `=1/0` at `A1` in the empty document evaluates to the
`#ERROR!` tag and is stored with `error = false`. -/
theorem C4_witness :
    getCell (setCell emptyEngine ("A1") (JSVal.str ("=1/0"))) ("A1") =
      ⟨JSVal.str ("#ERROR!"), JSVal.str ("=1/0"), JSVal.bool false⟩ :=
  (C4_eval_failure_stores_error_tag emptyEngine ("A1") ("=1/0")
    (by decide) (by decide)).2 (by decide)

namespace Spreadsheet

theorem mem_addUnique_self (l : List String) (x : String) : x ∈ addUnique l x := by
  unfold addUnique
  by_cases h : x ∈ l
  · simp [h]
  · simp [h]

theorem mem_addUnique_of_mem {l : List String} {y : String} (x : String) (h : y ∈ l) :
    y ∈ addUnique l x := by
  unfold addUnique
  by_cases hm : x ∈ l
  · simp [hm, h]
  · simp [hm, List.mem_append, h]

theorem nodup_addUnique (l : List String) (x : String) (h : l.Nodup) :
    (addUnique l x).Nodup := by
  unfold addUnique
  by_cases hm : x ∈ l
  · simp [hm, h]
  · simp [hm, List.nodup_append, h]

theorem mem_foldl_addUnique {y : String} :
    ∀ (l : List String) (acc : List String), y ∈ acc → y ∈ l.foldl addUnique acc := by
  intro l
  induction l with
  | nil => intro acc h; simpa using h
  | cons x xs ih =>
    intro acc h
    simp only [List.foldl_cons]
    exact ih _ (mem_addUnique_of_mem x h)

theorem nodup_foldl_addUnique :
    ∀ (l : List String) (acc : List String), acc.Nodup → (l.foldl addUnique acc).Nodup := by
  intro l
  induction l with
  | nil => intro acc h; simpa using h
  | cons x xs ih =>
    intro acc h
    simp only [List.foldl_cons]
    exact ih _ (nodup_addUnique acc x h)

theorem bfsDependents_mem_acc (g : List (String × List String)) {y : String} :
    ∀ (fuel : Nat) (q visited acc : List String),
      y ∈ acc → y ∈ bfsDependents g fuel q visited acc := by
  intro fuel
  induction fuel with
  | zero => intro q visited acc h; simpa [bfsDependents] using h
  | succ n ih =>
    intro q visited acc h
    cases q with
    | nil => simpa [bfsDependents] using h
    | cons qh qt =>
      by_cases hv : qh ∈ visited
      · simpa [bfsDependents, hv] using ih qt visited acc h
      · simpa [bfsDependents, hv] using
          ih (qt ++ dependentsOf g qh) (visited ++ [qh]) _ (mem_foldl_addUnique _ _ h)

theorem bfsDependents_nodup (g : List (String × List String)) :
    ∀ (fuel : Nat) (q visited acc : List String),
      acc.Nodup → (bfsDependents g fuel q visited acc).Nodup := by
  intro fuel
  induction fuel with
  | zero => intro q visited acc h; simpa [bfsDependents] using h
  | succ n ih =>
    intro q visited acc h
    cases q with
    | nil => simpa [bfsDependents] using h
    | cons qh qt =>
      by_cases hv : qh ∈ visited
      · simpa [bfsDependents, hv] using ih qt visited acc h
      · simpa [bfsDependents, hv] using
          ih (qt ++ dependentsOf g qh) (visited ++ [qh]) _ (nodup_foldl_addUnique _ _ h)

theorem mem_seedRecalc_foldl (cells : List (String × CellData)) (c : String) :
    ∀ (l : List String) (acc : List String),
      (c ∈ acc ∨ (c ∈ l ∧ hasFormulaCell cells c = true)) →
      c ∈ l.foldl (fun acc x => if hasFormulaCell cells x then addUnique acc x else acc) acc := by
  intro l
  induction l with
  | nil =>
    intro acc h
    rcases h with h | ⟨h, _⟩
    · simpa using h
    · simp at h
  | cons x xs ih =>
    intro acc h
    simp only [List.foldl_cons]
    apply ih
    rcases h with h | ⟨hm, hf⟩
    · left
      by_cases hx : hasFormulaCell cells x = true
      · simp only [hx, if_true]
        exact mem_addUnique_of_mem x h
      · simp only [hx, if_false]
        exact h
    · rcases List.mem_cons.mp hm with hc | hc
      · subst hc
        left
        simp only [hf, if_true]
        exact mem_addUnique_self acc c
      · exact Or.inr ⟨hc, hf⟩

theorem nodup_seedRecalc_foldl (cells : List (String × CellData)) :
    ∀ (l : List String) (acc : List String), acc.Nodup →
      (l.foldl (fun acc x => if hasFormulaCell cells x then addUnique acc x else acc) acc).Nodup := by
  intro l
  induction l with
  | nil => intro acc h; simpa using h
  | cons x xs ih =>
    intro acc h
    simp only [List.foldl_cons]
    apply ih
    by_cases hx : hasFormulaCell cells x = true
    · simp only [hx, if_true]
      exact nodup_addUnique acc x h
    · simp only [hx, if_false]
      exact h

theorem recomputeStep_evalOk_ok (st : EngineState) (c : String) :
    ∃ st', recomputeStep evalOk st c = Except.ok st' := by
  unfold recomputeStep evalOk
  cases alGet st.cells c with
  | none => exact ⟨_, rfl⟩
  | some cd =>
    by_cases ht : truthy cd.formula = true
    · simp only [ht, if_true]
      by_cases hj : jsEq cd.value (evaluate st.cells cd.formula c) = true
      · simp only [hj, if_true]
        exact ⟨_, rfl⟩
      · simp only [hj, if_false]
        exact ⟨_, rfl⟩
    · simp only [ht, if_false]
      exact ⟨_, rfl⟩

theorem recomputeAll_evalOk_not_threw :
    ∀ (cs : List String) (st : EngineState), (recomputeAll evalOk cs st).2 = false := by
  intro cs
  induction cs with
  | nil => intro st; rfl
  | cons c cs ih =>
    intro st
    obtain ⟨st', hst⟩ := recomputeStep_evalOk_ok st c
    simp [recomputeAll, hst, ih]

theorem alGet_map_snd {α β γ : Type} [DecidableEq α] (f : β → γ) :
    ∀ (m : List (α × β)) (k : α),
      alGet (m.map (fun p => (p.1, f p.2))) k = (alGet m k).map f := by
  intro m
  induction m with
  | nil => intro k; rfl
  | cons p t ih =>
    intro k
    obtain ⟨k', v⟩ := p
    by_cases hk : k' = k
    · simp [alGet, hk]
    · simp [alGet, hk, ih]

end Spreadsheet

/-- C5 (amended): a `processChangedCells` pass notifies observers once
per entry of the changed list and once per member of the recompute set,
in that order; so a coordinate is notified `count in changed` plus one
more time if it is in the recompute set — in particular a changed cell
holding a formula is in the recompute set and is notified twice, not
once.  The recompute set itself holds no duplicates. -/
theorem C5_notification_counts (st : EngineState) (changed : List String) :
    (processChangedCells st changed).notified = changed ++ toRecalcList st changed
    ∧ (toRecalcList st changed).Nodup
    ∧ (∀ c : String, (processChangedCells st changed).notified.count c =
        changed.count c + (toRecalcList st changed).count c)
    ∧ ∀ c ∈ changed, hasFormulaCell st.cells c = true → c ∈ toRecalcList st changed := by
  have hnotif : (processChangedCells st changed).notified =
      changed ++ toRecalcList st changed := by
    obtain ⟨⟨st2, b⟩, hr⟩ :
        ∃ p, recomputeAll evalOk (toRecalcList st changed) { st with isProcessing := true } = p :=
      ⟨_, rfl⟩
    have hb : b = false := by
      have := recomputeAll_evalOk_not_threw (toRecalcList st changed)
        { st with isProcessing := true }
      rw [hr] at this
      exact this
    subst hb
    simp only [processChangedCells, processChangedCellsWith, hr]
  refine ⟨hnotif, ?_, ?_, ?_⟩
  · exact bfsDependents_nodup _ _ _ _ _
      (nodup_seedRecalc_foldl st.cells changed [] List.nodup_nil)
  · intro c
    rw [hnotif, List.count_append]
  · intro c hc hf
    exact bfsDependents_mem_acc _ _ _ _ _
      (mem_seedRecalc_foldl st.cells c changed [] (Or.inr ⟨hc, hf⟩))

/-- C5 witness: in the one-cell document `A1 = '=1'`, the changed formula
cell is in the recompute set, and the notification sequence of the pass
lists it twice. -/
theorem C5_witness :
    (processChangedCells unitFormulaState (["A1"])).notified =
      ["A1"] ++ toRecalcList unitFormulaState (["A1"])
    ∧ ("A1") ∈ toRecalcList unitFormulaState (["A1"]) :=
  ⟨(C5_notification_counts unitFormulaState (["A1"])).1,
   (C5_notification_counts unitFormulaState (["A1"])).2.2.2 ("A1")
     (by decide) (by decide)⟩

/-- C10: the public read interface coerces falsy stored fields to
defaults.  A coordinate with no record reads as
`{value: '', formula: null, error: false}`; an existing record reads
field-wise through the `||` coercion, so any falsy stored value — the
number `0` included — is returned as `''`, a falsy formula as `null`, a
falsy error flag as `false`; a record whose three fields are falsy is
indistinguishable from a blank cell, and `getAllCells` applies the same
coercion to every entry. -/
theorem C10_falsy_coercion :
    (∀ (st : EngineState) (coord : String), alGet st.cells coord = none →
      getCell st coord = ⟨JSVal.str (""), JSVal.null, JSVal.bool false⟩)
    ∧ (∀ (st : EngineState) (coord : String) (cd : CellData),
        alGet st.cells coord = some cd →
        getCell st coord = coerceView cd
        ∧ (truthy cd.value = false → (getCell st coord).value = JSVal.str (""))
        ∧ (truthy cd.formula = false → (getCell st coord).formula = JSVal.null)
        ∧ (truthy cd.error = false → (getCell st coord).error = JSVal.bool false))
    ∧ truthy (JSVal.num (JNum.ofInt 0)) = false
    ∧ (∀ (st : EngineState) (coord : String) (cd : CellData),
        alGet st.cells coord = some cd →
        truthy cd.value = false → truthy cd.formula = false → truthy cd.error = false →
        getCell st coord = getCell emptyEngine coord)
    ∧ ∀ (st : EngineState) (coord : String),
        alGet (getAllCells st) coord = (alGet st.cells coord).map coerceView := by
  refine ⟨?_, ?_, by decide, ?_, ?_⟩
  · intro st coord h
    unfold getCell getCellD
    rw [h]
  · intro st coord cd h
    have hv : getCell st coord = coerceView cd := by
      unfold getCell getCellD
      rw [h]
    refine ⟨hv, ?_, ?_, ?_⟩
    · intro hf
      rw [hv]
      unfold coerceView
      simp [hf]
    · intro hf
      rw [hv]
      unfold coerceView
      simp [hf]
    · intro hf
      rw [hv]
      unfold coerceView
      simp [hf]
  · intro st coord cd h h1 h2 h3
    unfold getCell getCellD
    rw [h]
    unfold coerceView
    simp [h1, h2, h3, emptyEngine, alGet]
  · intro st coord
    unfold getAllCells
    exact alGet_map_snd coerceView st.cells coord

/-- C10 witness: a record storing the number `0` (with falsy formula and
error fields) reads back exactly like a blank cell. -/
theorem C10_witness :
    getCell ⟨[(("A1"), ⟨JSVal.num (JNum.ofInt 0), JSVal.null, JSVal.bool false⟩)], [], false⟩
      ("A1") = getCell emptyEngine ("A1") :=
  C10_falsy_coercion.2.2.2.1
    ⟨[(("A1"), ⟨JSVal.num (JNum.ofInt 0), JSVal.null, JSVal.bool false⟩)], [], false⟩
    ("A1") ⟨JSVal.num (JNum.ofInt 0), JSVal.null, JSVal.bool false⟩
    (by decide) (by decide) (by decide) (by decide)

namespace Spreadsheet

theorem char_toNat_inj {c d : Char} (h : c.toNat = d.toNat) : c = d :=
  Char.eq_of_val_eq (UInt32.ext h)

theorem charUpper_toNat : ∀ r : Nat, r < 26 → (Char.ofNat (65 + r)).toNat = 65 + r := by
  intro r h
  interval_cases r <;> decide

theorem charDigit_toNat : ∀ d : Nat, d < 10 → (Char.ofNat (48 + d)).toNat = 48 + d := by
  intro d h
  interval_cases d <;> decide

theorem isUpperAZ_charUpper (r : Nat) (h : r < 26) :
    isUpperAZ (Char.ofNat (65 + r)) = true := by
  unfold isUpperAZ
  rw [charUpper_toNat r h]
  simp only [Bool.and_eq_true, decide_eq_true_eq]
  omega

theorem isDigit09_charDigit (d : Nat) (h : d < 10) :
    isDigit09 (Char.ofNat (48 + d)) = true := by
  unfold isDigit09
  rw [charDigit_toNat d h]
  simp only [Bool.and_eq_true, decide_eq_true_eq]
  omega

theorem not_isUpperAZ_of_isDigit09 {c : Char} (h : isDigit09 c = true) :
    isUpperAZ c = false := by
  unfold isDigit09 at h
  unfold isUpperAZ
  simp only [Bool.and_eq_true, decide_eq_true_eq] at h
  simp only [Bool.and_eq_false_iff, decide_eq_false_iff_not]
  left
  omega

theorem charUpper_ofNat_toNat {c : Char} (h1 : 65 ≤ c.toNat) (h2 : c.toNat ≤ 90) :
    Char.ofNat c.toNat = c := by
  apply char_toNat_inj
  have h := charUpper_toNat (c.toNat - 65) (by omega)
  have e : 65 + (c.toNat - 65) = c.toNat := by omega
  rw [e] at h
  rw [h]

theorem takeWhile_append_split (p : Char → Bool) :
    ∀ L D : List Char, (∀ x ∈ L, p x = true) →
      (∀ (d : Char) (D' : List Char), D = d :: D' → p d = false) →
      (L ++ D).takeWhile p = L ∧ (L ++ D).dropWhile p = D := by
  intro L
  induction L with
  | nil =>
    intro D _ h2
    cases D with
    | nil => exact ⟨rfl, rfl⟩
    | cons d D' =>
      simp only [List.nil_append]
      constructor
      · rw [List.takeWhile_cons, h2 d D' rfl]
        simp
      · rw [List.dropWhile_cons, h2 d D' rfl]
        simp
  | cons x xs ih =>
    intro D h1 h2
    have hx : p x = true := h1 x (List.mem_cons_self x xs)
    obtain ⟨iht, ihd⟩ := ih D (fun y hy => h1 y (List.mem_cons_of_mem x hy)) h2
    constructor
    · simp only [List.cons_append, List.takeWhile_cons, hx, if_true, iht]
    · simp only [List.cons_append, List.dropWhile_cons, hx, if_true, ihd]

/-- Splitting a canonical `letters ++ digits` text the way the regular
expression `^([A-Z]+)(\d+)$` does. -/
theorem a1ToCoord_split (L D : List Char) (hL : L ≠ [])
    (hLu : ∀ c ∈ L, isUpperAZ c = true) (hD : D ≠ [])
    (hDd : ∀ c ∈ D, isDigit09 c = true) :
    a1ToCoord (String.mk (L ++ D)) = some ⟨(digitsToNat D : Int) - 1, letterToCol L⟩ := by
  have hsplit := takeWhile_append_split isUpperAZ L D hLu
    (fun d D' hD' => by
      apply not_isUpperAZ_of_isDigit09
      apply hDd
      rw [hD']
      exact List.mem_cons_self d D')
  unfold a1ToCoord
  simp only [hsplit.1, hsplit.2]
  rw [if_neg hL, if_neg hD, if_pos (List.all_eq_true.mpr hDd)]

end Spreadsheet

namespace Spreadsheet

theorem letterToCol_append_singleton (xs : List Char) (c : Char) :
    letterToCol (xs ++ [c]) = (letterToCol xs + 1) * 26 + (c.toNat : Int) - 64 - 1 := by
  unfold letterToCol
  rw [List.foldl_append]
  simp only [List.foldl_cons, List.foldl_nil]
  ring

theorem colToLetterAux_ne_nil (fuel col : Nat) (h : 0 < fuel) :
    colToLetterAux fuel col ≠ [] := by
  obtain ⟨k, rfl⟩ : ∃ k, fuel = k + 1 := ⟨fuel - 1, by omega⟩
  unfold colToLetterAux
  by_cases hc : col < 26
  · simp [hc]
  · simp [hc]

theorem colToLetterAux_upper :
    ∀ fuel col : Nat, ∀ c ∈ colToLetterAux fuel col, isUpperAZ c = true := by
  intro fuel
  induction fuel with
  | zero => intro col c h; simp [colToLetterAux] at h
  | succ k ih =>
    intro col c h
    unfold colToLetterAux at h
    by_cases hc : col < 26
    · rw [if_pos hc] at h
      rcases List.mem_singleton.mp h with rfl
      exact isUpperAZ_charUpper (col % 26) (Nat.mod_lt col (by omega))
    · rw [if_neg hc] at h
      rcases List.mem_append.mp h with h | h
      · exact ih _ c h
      · rcases List.mem_singleton.mp h with rfl
        exact isUpperAZ_charUpper (col % 26) (Nat.mod_lt col (by omega))

/-- The value of `letterToCol` on the letters `colToLetter` produces:
one more than the column (before the final `- 1`), i.e. the round trip. -/
theorem letterToCol_colToLetterAux :
    ∀ fuel col : Nat, col < fuel → letterToCol (colToLetterAux fuel col) = col := by
  intro fuel
  induction fuel with
  | zero => intro col h; omega
  | succ k ih =>
    intro col h
    unfold colToLetterAux
    by_cases hc : col < 26
    · rw [if_pos hc]
      unfold letterToCol
      simp only [List.foldl_cons, List.foldl_nil]
      rw [charUpper_toNat (col % 26) (Nat.mod_lt col ?_)]
      · have : col % 26 = col := Nat.mod_eq_of_lt hc
        rw [this]
        push_cast
        ring
      · omega
    · rw [if_neg hc]
      rw [letterToCol_append_singleton]
      have hlt : col / 26 < col := Nat.div_lt_self (by omega) (by omega)
      have hge : 1 ≤ col / 26 := by
        have := Nat.div_le_div_right (c := 26) (Nat.le_of_not_lt hc)
        simpa using this
      have hrec := ih (col / 26 - 1) (by omega)
      rw [hrec]
      rw [charUpper_toNat (col % 26) (Nat.mod_lt col (by omega))]
      have hdm := Nat.div_add_mod col 26
      have hcast : ((col / 26 - 1 : Nat) : Int) = (col / 26 : Nat) - 1 := by
        omega
      rw [hcast]
      push_cast
      omega

theorem letterToCol_colToLetter (col : Nat) :
    letterToCol (colToLetter (col : Int)) = col := by
  unfold colToLetter
  rw [if_neg (by omega : ¬ ((col : Int) < 0))]
  rw [Int.toNat_natCast]
  exact letterToCol_colToLetterAux (col + 1) col (by omega)

theorem colToLetterAux_fuel_inv :
    ∀ f1 f2 col : Nat, col < f1 → col < f2 →
      colToLetterAux f1 col = colToLetterAux f2 col := by
  intro f1
  induction f1 with
  | zero => intro f2 col h1 _; omega
  | succ k1 ih =>
    intro f2 col h1 h2
    obtain ⟨k2, rfl⟩ : ∃ k2, f2 = k2 + 1 := ⟨f2 - 1, by omega⟩
    unfold colToLetterAux
    by_cases hc : col < 26
    · rw [if_pos hc, if_pos hc]
    · rw [if_neg hc, if_neg hc]
      have hlt : col / 26 < col := Nat.div_lt_self (by omega) (by omega)
      rw [ih k2 (col / 26 - 1) (by omega) (by omega)]

/-- The inverse round trip: rebuilding the letters from the column number
of a nonempty uppercase text gives the text back, and that column number
is nonnegative. -/
theorem colToLetter_letterToCol :
    ∀ L : List Char, L ≠ [] → (∀ c ∈ L, isUpperAZ c = true) →
      0 ≤ letterToCol L ∧ colToLetter (letterToCol L) = L := by
  intro L
  induction L using List.reverseRecOn with
  | nil => intro h _; exact absurd rfl h
  | append_singleton M c ihM =>
    intro _ hu
    have hc : isUpperAZ c = true := hu c (by simp)
    have hc1 : 65 ≤ c.toNat ∧ c.toNat ≤ 90 := by
      unfold isUpperAZ at hc
      simpa using hc
    rw [letterToCol_append_singleton]
    by_cases hM : M = []
    · subst hM
      have hl : letterToCol [] = -1 := by decide
      rw [hl]
      have hval : (-1 + 1) * 26 + (c.toNat : Int) - 64 - 1 = (c.toNat : Int) - 65 := by ring
      rw [hval]
      constructor
      · omega
      · unfold colToLetter
        rw [if_neg (by omega : ¬ ((c.toNat : Int) - 65 < 0))]
        have ht : ((c.toNat : Int) - 65).toNat = c.toNat - 65 := by omega
        rw [ht]
        unfold colToLetterAux
        rw [if_pos (by omega : c.toNat - 65 < 26)]
        have hm : (c.toNat - 65) % 26 = c.toNat - 65 := Nat.mod_eq_of_lt (by omega)
        rw [hm]
        have he : 65 + (c.toNat - 65) = c.toNat := by omega
        rw [he, charUpper_ofNat_toNat hc1.1 hc1.2]
        simp
    · obtain ⟨hw0, hback⟩ := ihM hM (fun y hy => hu y (List.mem_append_left _ hy))
      set w := letterToCol M with hw
      have hval : (w + 1) * 26 + (c.toNat : Int) - 64 - 1 =
          (w + 1) * 26 + ((c.toNat : Int) - 65) := by ring
      rw [hval]
      have hv0 : 0 ≤ (w + 1) * 26 + ((c.toNat : Int) - 65) := by nlinarith
      refine ⟨hv0, ?_⟩
      unfold colToLetter
      rw [if_neg (by omega : ¬ ((w + 1) * 26 + ((c.toNat : Int) - 65) < 0))]
      have hn : (((w + 1) * 26 + ((c.toNat : Int) - 65)).toNat : Int) =
          (w + 1) * 26 + ((c.toNat : Int) - 65) := Int.toNat_of_nonneg hv0
      set n := ((w + 1) * 26 + ((c.toNat : Int) - 65)).toNat with hndef
      have hwt : (w.toNat : Int) = w := Int.toNat_of_nonneg hw0
      have hnval : n = (w.toNat + 1) * 26 + (c.toNat - 65) := by omega
      have hn26 : ¬ n < 26 := by omega
      obtain ⟨k, hk⟩ : ∃ k, n + 1 = k + 1 := ⟨n, rfl⟩
      unfold colToLetterAux
      rw [if_neg hn26]
      have hmod : n % 26 = c.toNat - 65 := by omega
      have hdiv : n / 26 - 1 = w.toNat := by omega
      rw [hmod, hdiv]
      have he : 65 + (c.toNat - 65) = c.toNat := by omega
      rw [he, charUpper_ofNat_toNat hc1.1 hc1.2]
      have hfuel : colToLetterAux n w.toNat = colToLetterAux (w.toNat + 1) w.toNat := by
        apply colToLetterAux_fuel_inv <;> omega
      rw [hfuel]
      unfold colToLetter at hback
      rw [if_neg (by omega : ¬ (w < 0))] at hback
      have : w.toNat = w.toNat := rfl
      rw [hback]

end Spreadsheet

namespace Spreadsheet

theorem digitsToNat_append_singleton (xs : List Char) (c : Char) :
    digitsToNat (xs ++ [c]) = digitsToNat xs * 10 + (c.toNat - 48) := by
  unfold digitsToNat
  rw [List.foldl_append]
  simp only [List.foldl_cons, List.foldl_nil]

theorem natToDigitsAux_ne_nil (fuel n : Nat) (h : 0 < fuel) :
    natToDigitsAux fuel n ≠ [] := by
  obtain ⟨k, rfl⟩ : ∃ k, fuel = k + 1 := ⟨fuel - 1, by omega⟩
  unfold natToDigitsAux
  by_cases hc : n < 10
  · simp [hc]
  · simp [hc]

theorem natToDigitsAux_digits :
    ∀ fuel n : Nat, ∀ c ∈ natToDigitsAux fuel n, isDigit09 c = true := by
  intro fuel
  induction fuel with
  | zero => intro n c h; simp [natToDigitsAux] at h
  | succ k ih =>
    intro n c h
    unfold natToDigitsAux at h
    by_cases hc : n < 10
    · rw [if_pos hc] at h
      rcases List.mem_singleton.mp h with rfl
      exact isDigit09_charDigit n hc
    · rw [if_neg hc] at h
      rcases List.mem_append.mp h with h | h
      · exact ih _ c h
      · rcases List.mem_singleton.mp h with rfl
        exact isDigit09_charDigit (n % 10) (Nat.mod_lt n (by omega))

theorem digitsToNat_natToDigitsAux :
    ∀ fuel n : Nat, n < fuel → digitsToNat (natToDigitsAux fuel n) = n := by
  intro fuel
  induction fuel with
  | zero => intro n h; omega
  | succ k ih =>
    intro n h
    unfold natToDigitsAux
    by_cases hc : n < 10
    · rw [if_pos hc]
      unfold digitsToNat
      simp only [List.foldl_cons, List.foldl_nil]
      rw [charDigit_toNat n hc]
      omega
    · rw [if_neg hc]
      rw [digitsToNat_append_singleton]
      have hlt : n / 10 < n := Nat.div_lt_self (by omega) (by omega)
      rw [ih (n / 10) (by omega)]
      rw [charDigit_toNat (n % 10) (Nat.mod_lt n (by omega))]
      omega

theorem digitsToNat_natToDigits (n : Nat) : digitsToNat (natToDigits n) = n :=
  digitsToNat_natToDigitsAux (n + 1) n (by omega)

theorem natToDigits_ne_nil (n : Nat) : natToDigits n ≠ [] :=
  natToDigitsAux_ne_nil (n + 1) n (by omega)

theorem natToDigits_digits (n : Nat) : ∀ c ∈ natToDigits n, isDigit09 c = true :=
  natToDigitsAux_digits (n + 1) n

/-- What `a1ToCoord` succeeding says about the text's shape. -/
theorem a1ToCoord_some_shape (s : String) (coordinate : Coord)
    (h : a1ToCoord s = some coordinate) :
    ∃ L D : List Char, s.data = L ++ D ∧ L ≠ [] ∧ (∀ c ∈ L, isUpperAZ c = true)
      ∧ D ≠ [] ∧ (∀ c ∈ D, isDigit09 c = true)
      ∧ coordinate = ⟨(digitsToNat D : Int) - 1, letterToCol L⟩ := by
  unfold a1ToCoord at h
  by_cases hL : s.data.takeWhile isUpperAZ = []
  · rw [if_pos hL] at h
    exact absurd h (by simp)
  · rw [if_neg hL] at h
    by_cases hR : s.data.dropWhile isUpperAZ = []
    · rw [if_pos hR] at h
      exact absurd h (by simp)
    · rw [if_neg hR] at h
      by_cases hA : (s.data.dropWhile isUpperAZ).all isDigit09 = true
      · rw [if_pos hA] at h
        refine ⟨s.data.takeWhile isUpperAZ, s.data.dropWhile isUpperAZ,
          (List.takeWhile_append_dropWhile isUpperAZ s.data).symm, hL, ?_, hR, ?_, ?_⟩
        · intro c hc
          exact List.mem_takeWhile_imp hc
        · exact fun c hc => List.all_eq_true.mp hA c hc
        · injection h with h
          exact h.symm
      · rw [if_neg hA] at h
        exact absurd h (by simp)

end Spreadsheet

/-- C6: coordinate canonicalization is exactly invertible.  For every
nonnegative row and column, `a1ToCoord (coordToA1 row col)` returns that
row/column pair; and for every canonical-form text — nonempty column
letters followed by the decimal rendering of a 1-based row number —
`a1ToCoord` succeeds and `coordToA1` of the resulting pair returns the
text unchanged. -/
theorem C6_coord_bijection :
    (∀ row col : Nat, a1ToCoord (coordToA1 (row : Int) (col : Int)) =
      some ⟨(row : Int), (col : Int)⟩)
    ∧ ∀ (L : List Char) (m : Nat), L ≠ [] → (∀ c ∈ L, isUpperAZ c = true) → 1 ≤ m →
        a1ToCoord (String.mk (L ++ natToDigits m)) = some ⟨(m : Int) - 1, letterToCol L⟩
        ∧ coordToA1 ((m : Int) - 1) (letterToCol L) = String.mk (L ++ natToDigits m) := by
  constructor
  · intro row col
    have hL : colToLetter (col : Int) = colToLetterAux (col + 1) col := by
      unfold colToLetter
      rw [if_neg (by omega : ¬ ((col : Int) < 0)), Int.toNat_natCast]
    have hD : intToDigits ((row : Int) + 1) = natToDigits (row + 1) := by
      unfold intToDigits
      rw [if_neg (by omega : ¬ ((row : Int) + 1 < 0))]
      have : ((row : Int) + 1).toNat = row + 1 := by omega
      rw [this]
    unfold coordToA1
    rw [hL, hD]
    rw [a1ToCoord_split _ _ (colToLetterAux_ne_nil _ _ (by omega))
      (colToLetterAux_upper _ _) (natToDigits_ne_nil _) (natToDigits_digits _)]
    rw [digitsToNat_natToDigits]
    have h1 : ((row + 1 : Nat) : Int) - 1 = (row : Int) := by push_cast; ring
    have h2 := letterToCol_colToLetterAux (col + 1) col (by omega)
    rw [h1, h2]
  · intro L m hL hU hm
    have ha := a1ToCoord_split L (natToDigits m) hL hU (natToDigits_ne_nil m)
      (natToDigits_digits m)
    rw [digitsToNat_natToDigits] at ha
    refine ⟨ha, ?_⟩
    obtain ⟨hcol0, hback⟩ := colToLetter_letterToCol L hL hU
    unfold coordToA1
    have hrow : (m : Int) - 1 + 1 = (m : Int) := by ring
    rw [hrow]
    have hD : intToDigits (m : Int) = natToDigits m := by
      unfold intToDigits
      rw [if_neg (by omega : ¬ ((m : Int) < 0)), Int.toNat_natCast]
    rw [hD, hback]

/-- C6 witness: the round trips at concrete values: row 2 / column 27
(`AB3`), and the canonical text `AA12`. -/
theorem C6_witness :
    a1ToCoord (coordToA1 (2 : Int) (27 : Int)) = some ⟨2, 27⟩
    ∧ coordToA1 ((12 : Int) - 1) (letterToCol ['A', 'A']) =
        String.mk (['A', 'A'] ++ natToDigits 12) :=
  ⟨C6_coord_bijection.1 2 27,
   (C6_coord_bijection.2 ['A', 'A'] 12 (by decide) (by decide) (by decide)).2⟩

namespace Spreadsheet

theorem flatMap_const_nil : ∀ l : List Int, (l.flatMap (fun _ => ([] : List String))) = [] := by
  intro l
  induction l with
  | nil => rfl
  | cons x xs ih => simp [List.flatMap] at ih ⊢

/-- The anchored range pattern on a canonical `COORD:COORD` text. -/
theorem splitRangeParts_concat (L1 D1 L2 D2 : List Char)
    (hL1 : L1 ≠ []) (hL1u : ∀ c ∈ L1, isUpperAZ c = true)
    (hD1 : D1 ≠ []) (hD1d : ∀ c ∈ D1, isDigit09 c = true)
    (hL2 : L2 ≠ []) (hL2u : ∀ c ∈ L2, isUpperAZ c = true)
    (hD2 : D2 ≠ []) (hD2d : ∀ c ∈ D2, isDigit09 c = true) :
    splitRangeParts (L1 ++ D1 ++ [':'] ++ L2 ++ D2) = some (L1 ++ D1, L2 ++ D2) := by
  have hassoc : L1 ++ D1 ++ [':'] ++ L2 ++ D2 = L1 ++ (D1 ++ (':' :: (L2 ++ D2))) := by
    simp [List.append_assoc]
  have h1 := takeWhile_append_split isUpperAZ L1 (D1 ++ (':' :: (L2 ++ D2))) hL1u
    (fun d D' hE => by
      apply not_isUpperAZ_of_isDigit09
      apply hD1d
      obtain ⟨d1, D1', rfl⟩ : ∃ d1 D1', D1 = d1 :: D1' := by
        cases D1 with
        | nil => exact absurd rfl hD1
        | cons d1 D1' => exact ⟨d1, D1', rfl⟩
      rw [List.cons_append] at hE
      injection hE with he1 _
      rw [he1]
      exact List.mem_cons_self _ _)
  have h2 := takeWhile_append_split isDigit09 D1 (':' :: (L2 ++ D2)) hD1d
    (fun d D' hE => by
      injection hE with he1 _
      rw [← he1]
      decide)
  have h3 := takeWhile_append_split isUpperAZ L2 D2 hL2u
    (fun d D' hE => by
      apply not_isUpperAZ_of_isDigit09
      apply hD2d
      rw [hE]
      exact List.mem_cons_self _ _)
  have h4 := takeWhile_append_split isDigit09 D2 [] hD2d (fun d D' hE => by simp at hE)
  rw [List.append_nil] at h4
  have e1 : L1.isEmpty = false := by cases L1 with | nil => exact absurd rfl hL1 | cons _ _ => rfl
  have e2 : D1.isEmpty = false := by cases D1 with | nil => exact absurd rfl hD1 | cons _ _ => rfl
  have e3 : L2.isEmpty = false := by cases L2 with | nil => exact absurd rfl hL2 | cons _ _ => rfl
  have e4 : D2.isEmpty = false := by cases D2 with | nil => exact absurd rfl hD2 | cons _ _ => rfl
  rw [hassoc]
  unfold splitRangeParts
  simp only [h1.1, h1.2, h2.1, h2.2, h3.1, h3.2, h4.1, h4.2,
    e1, e2, e3, e4, List.isEmpty_nil, Bool.not_true, Bool.or_false, Bool.or_self,
    Bool.false_or, if_false]
  rfl

theorem string_mk_data (s : String) : String.mk s.data = s := rfl

theorem mem_intRangeList {lo hi x : Int} (h1 : lo ≤ x) (h2 : x ≤ hi) :
    x ∈ intRangeList lo hi := by
  unfold intRangeList
  have hx : x = lo + ((x - lo).toNat : Int) := by omega
  have hmem : (x - lo).toNat ∈ List.range (hi + 1 - lo).toNat :=
    List.mem_range.mpr (by omega)
  rw [hx]
  show (fun i : Nat => lo + (i : Int)) ((x - lo).toNat) ∈
    (List.range (hi + 1 - lo).toNat).map (fun i : Nat => lo + (i : Int))
  exact List.mem_map_of_mem (fun i : Nat => lo + (i : Int)) hmem

end Spreadsheet

/-- C2 (amended): the range token `C1:C2` expands to the rectangle
iterated from the first corner to the second on each axis with no
min/max normalization: when the first corner is the top-left the
expansion is the full inclusive rectangle, but when the first corner
exceeds the second on either axis the loops run zero times and the
expansion is empty — so `SUM(B1:A1)` is `0` while `SUM(A1:B1)` is `30`
in the spec's example, and the expansion is not corner-order
independent. -/
theorem C2_range_expansion :
    (∀ (a b : String) (ca cb : Coord), a1ToCoord a = some ca → a1ToCoord b = some cb →
      parseRange (a ++ (":") ++ b) = rectCells ca cb)
    ∧ (∀ ca cb : Coord, ca.row > cb.row ∨ ca.col > cb.col → rectCells ca cb = [])
    ∧ (∀ (ca cb : Coord) (r c : Int), ca.row ≤ r → r ≤ cb.row → ca.col ≤ c → c ≤ cb.col →
        coordToA1 r c ∈ rectCells ca cb)
    ∧ evaluate sumState.cells (JSVal.str ("=SUM(A1:B1)")) ("C1") = JSVal.num ⟨30, 1⟩
    ∧ evaluate sumState.cells (JSVal.str ("=SUM(B1:A1)")) ("C1") = JSVal.num ⟨0, 1⟩ := by
  refine ⟨?_, ?_, ?_, by decide, by decide⟩
  · intro a b ca cb ha hb
    obtain ⟨L1, D1, hadata, hL1, hL1u, hD1, hD1d, hca⟩ := a1ToCoord_some_shape a ca ha
    obtain ⟨L2, D2, hbdata, hL2, hL2u, hD2, hD2d, hcb⟩ := a1ToCoord_some_shape b cb hb
    have hdata : (a ++ (":") ++ b).data = L1 ++ D1 ++ [':'] ++ L2 ++ D2 := by
      rw [String.data_append, String.data_append, hadata, hbdata]
      simp [List.append_assoc]
    have hmk1 : String.mk (L1 ++ D1) = a := by rw [← hadata]
    have hmk2 : String.mk (L2 ++ D2) = b := by rw [← hbdata]
    unfold parseRange
    rw [hdata, splitRangeParts_concat L1 D1 L2 D2 hL1 hL1u hD1 hD1d hL2 hL2u hD2 hD2d]
    simp only [hmk1, hmk2, ha, hb]
  · intro ca cb h
    unfold rectCells
    rcases h with h | h
    · have hrow : intRangeList ca.row cb.row = [] := by
        unfold intRangeList
        have : (cb.row + 1 - ca.row).toNat = 0 := by omega
        rw [this]
        rfl
      rw [hrow]
      rfl
    · have hcol : intRangeList ca.col cb.col = [] := by
        unfold intRangeList
        have : (cb.col + 1 - ca.col).toNat = 0 := by omega
        rw [this]
        rfl
      rw [hcol]
      simp only [List.map_nil]
      exact flatMap_const_nil _
  · intro ca cb r c h1 h2 h3 h4
    unfold rectCells
    apply List.mem_flatMap.mpr
    refine ⟨r, mem_intRangeList h1 h2, ?_⟩
    apply List.mem_map.mpr
    exact ⟨c, mem_intRangeList h3 h4, rfl⟩

/-- C2 witness: the reversed-corner range `B1:A1` expands through
`parseRange` to the inverted rectangle, which is empty. -/
theorem C2_witness :
    parseRange (("B1") ++ (":") ++ ("A1")) = rectCells ⟨0, 1⟩ ⟨0, 0⟩
    ∧ rectCells ⟨0, 1⟩ ⟨0, 0⟩ = [] :=
  ⟨C2_range_expansion.1 ("B1") ("A1") ⟨0, 1⟩ ⟨0, 0⟩ (by decide) (by decide),
   C2_range_expansion.2.1 ⟨0, 1⟩ ⟨0, 0⟩ (Or.inr (by decide))⟩
